import Mathlib

/-!
# Verification of the supergraph-to-subgraphs extraction pipeline

This file is a shallow embedding, in Lean 4, of the extraction pipeline of
`apollo-federation/src/query_graph/extract_subgraphs_from_supergraph.rs`.
Every definition is translated from that source file unless its doc comment
says `Modelled from the spec:`, which marks code of the repository that lives
outside the provided sources (notably `schema/position.rs`'s
`remove_recursive`, and the join/link spec version tables) and is therefore
reconstructed from the specification's words.

External collaborators (the `apollo-compiler` schema parser and the generic
schema validator) are taken as parameters, as the specification treats them
as assumed-correct external interfaces.
-/

namespace ExtractSubgraphs

/-- GraphQL type-system names. -/
abbrev GName := String

/-- GraphQL type expressions (`apollo_compiler::schema::Type`): a named type,
a list wrapper, or a non-null wrapper. `Named n` is `named n`;
`NonNullNamed n` is `nonNull (named n)`; `List t` is `list t`;
`NonNullList t` is `nonNull (list t)`. -/
inductive GType
  | named (n : GName)
  | list (t : GType)
  | nonNull (t : GType)
deriving DecidableEq, Repr

/-- The base (innermost named) type of a type expression; used to track which
type definition a field or argument structurally references. -/
def GType.baseName : GType → GName
  | .named n => n
  | .list t => t.baseName
  | .nonNull t => t.baseName

/-- `apollo_compiler::schema::InputValueDefinition`: an argument or input
field. `directives` records directive applications on the value itself
(the extraction copies arguments with `directives: Default::default()`,
i.e. stripped). Descriptions are not modelled (always dropped by the
extraction). -/
structure InputValueDef where
  name : GName
  ty : GType
  defaultValue : Option String
  directives : List GName
deriving DecidableEq, Repr

/-- `join_spec_definition::FieldDirectiveArguments`: the decoded arguments of
one `@join__field` application. -/
structure FieldDirectiveArguments where
  graph : Option GName
  requires : Option String
  provides : Option String
  type_ : Option String
  external : Option Bool
  override_ : Option String
  user_overridden : Option Bool
deriving DecidableEq, Repr

/-- The all-`None` `FieldDirectiveArguments` value built by
`add_subgraph_field` / `add_subgraph_input_field` when the field has no
`@join__field` application (`unwrap_or_else` in the source). -/
def FieldDirectiveArguments.none_ : FieldDirectiveArguments :=
  { graph := none, requires := none, provides := none, type_ := none,
    external := none, override_ := none, user_overridden := none }

/-- A supergraph field definition (`apollo_compiler::ast::FieldDefinition`)
together with its `@join__field` applications, already filtered out of the
field's directive list exactly as the `for directive in field.directives`
loops of the source do. -/
structure FieldDef where
  name : GName
  arguments : List InputValueDef
  ty : GType
  joinFieldApps : List FieldDirectiveArguments
deriving DecidableEq, Repr

/-- A supergraph input-object field with its `@join__field` applications. -/
structure InputFieldDef where
  name : GName
  ty : GType
  defaultValue : Option String
  joinFieldApps : List FieldDirectiveArguments
deriving DecidableEq, Repr

/-- A supergraph enum value with the graphs named by its `@join__enumValue`
applications. -/
structure EnumValueDef where
  name : GName
  joinEnumValueApps : List GName
deriving DecidableEq, Repr

/-- `join_spec_definition::TypeDirectiveArguments`: the decoded arguments of
one `@join__type` application. -/
structure TypeDirectiveArguments where
  graph : GName
  key : Option String
  extension : Bool
  resolvable : Bool
  is_interface_object : Bool
deriving DecidableEq, Repr

/-- One `@join__implements(graph:, interface:)` application. -/
structure ImplementsArgs where
  graph : GName
  interface_ : GName
deriving DecidableEq, Repr

/-- One `@join__unionMember(graph:, member:)` application. -/
structure UnionMemberArgs where
  graph : GName
  member : GName
deriving DecidableEq, Repr

/-- The five extractable type kinds plus scalars
(`TypeDefinitionPosition` variants). -/
inductive TypeKind
  | scalar
  | object
  | interface
  | union
  | enum
  | inputObject
deriving DecidableEq, Repr

/-- `apollo_compiler::schema::DirectiveLocation`. -/
inductive DirLoc
  | onQuery
  | onMutation
  | onSubscription
  | onField
  | onFragmentDefinition
  | onFragmentSpread
  | onInlineFragment
  | onVariableDefinition
  | onSchema
  | onScalar
  | onObject
  | onFieldDefinition
  | onArgumentDefinition
  | onInterface
  | onUnion
  | onEnum
  | onEnumValue
  | onInputObject
  | onInputFieldDefinition
deriving DecidableEq, Repr

/-- `EXECUTABLE_DIRECTIVE_LOCATIONS` from the source. -/
def EXECUTABLE_DIRECTIVE_LOCATIONS : List DirLoc :=
  [.onQuery, .onMutation, .onSubscription, .onField, .onFragmentDefinition,
   .onFragmentSpread, .onInlineFragment, .onVariableDefinition]

/-- `apollo_compiler::schema::DirectiveDefinition` (descriptions not
modelled). -/
structure DirectiveDef where
  name : GName
  arguments : List InputValueDef
  repeatable : Bool
  locations : List DirLoc
deriving DecidableEq, Repr

/-- One supergraph type definition with all of its decoded provenance
directive applications bucketed by directive kind, plus its per-kind
content. Only the content lists matching `kind` are meaningful. -/
structure SupergraphType where
  name : GName
  kind : TypeKind
  joinTypeApps : List TypeDirectiveArguments
  joinImplementsApps : List ImplementsArgs
  fields : List FieldDef
  inputFields : List InputFieldDef
  unionMembers : List GName
  joinUnionMemberApps : List UnionMemberArgs
  enumValues : List EnumValueDef
deriving DecidableEq, Repr

/-- One value of the `join__Graph` enum: its enum-value name and the decoded
`@join__graph(name:, url:)` arguments when that directive is present. -/
structure GraphEnumValue where
  enumName : GName
  graphApp : Option (String × String)
deriving DecidableEq, Repr

/-- A spec version (`link::spec::Version`). -/
structure Version where
  major : Nat
  minor : Nat
deriving DecidableEq, Repr

/-- The supergraph input: core-schema/link metadata facts plus the type and
directive definitions. `joinVersion` is the version of the join link when
`hasJoinLink` is true. -/
structure Supergraph where
  isCoreSchema : Bool
  hasJoinLink : Bool
  joinVersion : Version
  graphEnumValues : List GraphEnumValue
  types : List SupergraphType
  directiveDefs : List DirectiveDef
deriving DecidableEq, Repr

/-- The error kinds of `SingleFederationError` that this pipeline produces:
malformed-supergraph errors, internal-invariant errors, and invalid-GraphQL
errors (the kind raised by `decode_type`). -/
inductive FedError
  | invalidFederationSupergraph (msg : String)
  | internal (msg : String)
  | invalidGraphQL (msg : String)
deriving DecidableEq, Repr

/-- Directives attached to a synthesized subgraph field by
`add_subgraph_field` (federation `@requires`/`@provides`/`@external`/
`@override`/`@shareable` applications). -/
inductive FieldDirective
  | requires (fields : String)
  | provides (fields : String)
  | external (reason : Option String)
  | override_ (from_ : GName)
  | shareable
deriving DecidableEq, Repr

/-- A synthesized subgraph field (`FieldDefinition` built by
`add_subgraph_field`). -/
structure SubgraphField where
  name : GName
  arguments : List InputValueDef
  ty : GType
  directives : List FieldDirective
deriving DecidableEq, Repr

/-- The payload of one member of a subgraph type: an output field, an input
field, a union member, or an enum value. -/
inductive MemberPayload
  | field (f : SubgraphField)
  | inputField (v : InputValueDef)
  | unionMember (ty : GName)
  | enumValue
deriving DecidableEq, Repr

/-- One member (field / input field / union member / enum value) of a
subgraph type definition. -/
structure MemberDef where
  name : GName
  payload : MemberPayload
deriving DecidableEq, Repr

/-- The named type a member structurally references: the base type of a
field's or input field's type expression, or a union member's type. Enum
values reference nothing. -/
def MemberDef.refTy (m : MemberDef) : Option GName :=
  match m.payload with
  | .field f => some f.ty.baseName
  | .inputField v => some v.ty.baseName
  | .unionMember t => some t
  | .enumValue => none

/-- A type definition inside a subgraph schema. `hasKey` records an attached
`@key` directive; `hasInterfaceObject` records the `@interfaceObject`
marker set on interface-object projections. The `@key` directive's
`resolvable:` argument and extension origin are not tracked (no claim
concerns them). -/
structure TypeDef where
  name : GName
  kind : TypeKind
  hasKey : Bool
  hasInterfaceObject : Bool
  implements : List GName
  members : List MemberDef
deriving DecidableEq, Repr

/-- A subgraph schema under construction: its type definitions, its schema
roots, and its directive definitions. The fixed federation preamble
(`new_empty_fed_2_subgraph_schema`) is abstracted away: its link/federation
scalar, enum and directive definitions take no part in any claim, so the
schema starts structurally empty. -/
structure SubSchema where
  types : List TypeDef
  queryRoot : Option GName
  mutationRoot : Option GName
  subscriptionRoot : Option GName
  directiveDefs : List DirectiveDef
deriving DecidableEq, Repr

/-- `new_empty_fed_2_subgraph_schema()`, with the federation preamble
abstracted (see `SubSchema`). -/
def new_empty_fed_2_subgraph_schema : SubSchema :=
  { types := [], queryRoot := none, mutationRoot := none,
    subscriptionRoot := none, directiveDefs := [] }

/-- `FederationSubgraph`. -/
structure FederationSubgraph where
  name : String
  url : String
  schema : SubSchema
deriving DecidableEq, Repr

/-- `FederationSubgraphs`: the name-keyed registry, kept as a list in
insertion order (key uniqueness is enforced by `Subgraphs.add`). -/
abbrev Subgraphs := List FederationSubgraph

/-- `FederationSubgraphs::add`: rejects duplicate subgraph names. -/
def Subgraphs.add (subs : Subgraphs) (s : FederationSubgraph) :
    Except FedError Subgraphs :=
  if subs.any (fun t => t.name == s.name) then
    .error (.invalidFederationSupergraph
      ("A subgraph named " ++ s.name ++ " already exists"))
  else
    .ok (subs ++ [s])

/-- The read-only context threaded through every extractor:
`graph_enum_value_name_to_subgraph_name` and the set of graph enum values
that have an entry in `federation_spec_definitions`. -/
structure ExtractContext where
  graphToSubgraph : List (GName × String)
  fedSpecGraphs : List GName
deriving DecidableEq, Repr

/-- The name-resolution half of `get_subgraph`: resolving an unknown graph
enum value is an internal-invariant error. -/
def get_subgraph_name (ctx : ExtractContext) (g : GName) :
    Except FedError String :=
  match ctx.graphToSubgraph.lookup g with
  | some n => .ok n
  | none => .error (.internal
      ("Invalid graph enum_value " ++ g ++
       ": does not match an enum value defined in the join__Graph enum"))

/-- The `federation_spec_definitions.get(...)` lookup performed by the
content extractors, whose failure is a malformed-supergraph error. -/
def require_fed_spec (ctx : ExtractContext) (g : GName) :
    Except FedError Unit :=
  if ctx.fedSpecGraphs.contains g then .ok ()
  else .error (.invalidFederationSupergraph
    "Subgraph unexpectedly does not use federation spec")

/-- `decode_type`. The source wraps the string in a throwaway
`type Query ... field: <t> ...` document and reads the parsed type back;
that parse is the external `apollo-compiler` parser, taken here as the
parameter `parseFieldType` (the result of parsing the string in a
field-type position, `none` when it does not parse back). Before parsing,
any string containing `}` or `:` is rejected. -/
def decode_type (parseFieldType : String → Option GType) (t : String) :
    Except FedError GType :=
  if t.data.any (fun c => c == '}' || c == ':') then
    .error (.invalidGraphQL ("Cannot parse type " ++ t))
  else
    match parseFieldType t with
    | some ty => .ok ty
    | none => .error (.invalidGraphQL ("Cannot parse type " ++ t))

/-- The directive list built by `add_subgraph_field`, in push order:
`@requires`, `@provides`, `@external` (when marked external),
`@external(reason: "[overridden]")` (when marked user-overridden),
`@override(from:)`, and `@shareable` exactly when shareable and neither
external nor user-overridden. -/
def subgraphFieldDirectives (app : FieldDirectiveArguments)
    (is_shareable : Bool) : List FieldDirective :=
  let external := app.external.getD false
  let user_overridden := app.user_overridden.getD false
  (app.requires.toList.map FieldDirective.requires)
    ++ (app.provides.toList.map FieldDirective.provides)
    ++ (if external then [FieldDirective.external none] else [])
    ++ (if user_overridden then
          [FieldDirective.external (some "[overridden]")] else [])
    ++ (app.override_.toList.map FieldDirective.override_)
    ++ (if is_shareable && !external && !user_overridden then
          [FieldDirective.shareable] else [])

/-- `add_subgraph_field`, as the pure synthesis of the subgraph
`FieldDefinition`: the type is the decoded override when `type_` is
present, else the supergraph field's type; arguments are copied with
descriptions and directives stripped; directives per
`subgraphFieldDirectives`. (The insertion of the result into the subgraph
schema is done by the callers' wiring below.) -/
def add_subgraph_field (parseFieldType : String → Option GType)
    (field : FieldDef) (is_shareable : Bool)
    (field_directive_application : Option FieldDirectiveArguments) :
    Except FedError SubgraphField :=
  let app := field_directive_application.getD FieldDirectiveArguments.none_
  match (match app.type_ with
         | some t => decode_type parseFieldType t
         | none => .ok field.ty) with
  | .error e => .error e
  | .ok ty =>
    .ok { name := field.name
          arguments := field.arguments.map
            (fun a => { a with directives := [] })
          ty := ty
          directives := subgraphFieldDirectives app is_shareable }

/-- `add_subgraph_input_field`, as the pure synthesis of the subgraph
`InputValueDefinition`: optional type override, default value copied
verbatim, no directives. -/
def add_subgraph_input_field (parseFieldType : String → Option GType)
    (input_field : InputFieldDef)
    (field_directive_application : Option FieldDirectiveArguments) :
    Except FedError InputValueDef :=
  let app := field_directive_application.getD FieldDirectiveArguments.none_
  match (match app.type_ with
         | some t => decode_type parseFieldType t
         | none => .ok input_field.ty) with
  | .error e => .error e
  | .ok ty =>
    .ok { name := input_field.name
          ty := ty
          defaultValue := input_field.defaultValue
          directives := [] }

/-- The shareability computation of `extract_object_type_content` for fields
with at least one `@join__field` application: more than one application
that is marked neither external nor user-overridden. -/
def fieldShareability (apps : List FieldDirectiveArguments) : Bool :=
  (apps.filter (fun a =>
    !(a.external.getD false) && !(a.user_overridden.getD false))).length > 1

/-- The implicit branch of object-field extraction (no `@join__field`): for
each graph enum value owning the type, resolve the subgraph, check the
federation spec entry, and synthesize the field with
`add_subgraph_field(..., is_shareable, None)`. Returns the synthesized
fields, keyed by subgraph name. -/
def fan_out_field (parseFieldType : String → Option GType)
    (ctx : ExtractContext) (field : FieldDef) (is_shareable : Bool) :
    List GName → Except FedError (List (String × SubgraphField))
  | [] => .ok []
  | g :: gs =>
    match get_subgraph_name ctx g with
    | .error e => .error e
    | .ok n =>
      match require_fed_spec ctx g with
      | .error e => .error e
      | .ok _ =>
        match add_subgraph_field parseFieldType field is_shareable none with
        | .error e => .error e
        | .ok f =>
          match fan_out_field parseFieldType ctx field is_shareable gs with
          | .error e => .error e
          | .ok rest => .ok ((n, f) :: rest)

/-- The explicit branch of object-field extraction: one iteration per
`@join__field` application. Applications naming no graph are supergraph-
only synthetic fields and are skipped; applications naming a subgraph
without type-level `@join__type` are a malformed-supergraph error. -/
def apply_field_apps (parseFieldType : String → Option GType)
    (ctx : ExtractContext) (type_name : GName) (field : FieldDef)
    (subgraph_info : List (GName × Bool)) (is_shareable : Bool) :
    List FieldDirectiveArguments →
    Except FedError (List (String × SubgraphField))
  | [] => .ok []
  | app :: rest =>
    match app.graph with
    | none =>
      apply_field_apps parseFieldType ctx type_name field subgraph_info
        is_shareable rest
    | some g =>
      match get_subgraph_name ctx g with
      | .error e => .error e
      | .ok n =>
        match require_fed_spec ctx g with
        | .error e => .error e
        | .ok _ =>
          if (subgraph_info.lookup g).isSome then
            match add_subgraph_field parseFieldType field is_shareable
                (some app) with
            | .error e => .error e
            | .ok f =>
              match apply_field_apps parseFieldType ctx type_name field
                  subgraph_info is_shareable rest with
              | .error e => .error e
              | .ok out => .ok ((n, f) :: out)
          else
            .error (.invalidFederationSupergraph
              ("@join__field cannot exist on " ++ type_name ++ "." ++
               field.name ++ " for subgraph " ++ g ++
               " without type-level @join__type"))

/-- The per-field algorithm of `extract_object_type_content`, parameterized
over the two shareability values it plugs in (`sh_implicit` for the
no-application fan-out, `sh_explicit` for the per-application branch). -/
def extract_object_field_core (parseFieldType : String → Option GType)
    (ctx : ExtractContext) (type_name : GName)
    (subgraph_info : List (GName × Bool)) (field : FieldDef)
    (sh_implicit sh_explicit : Bool) :
    Except FedError (List (String × SubgraphField)) :=
  if field.joinFieldApps.isEmpty then
    fan_out_field parseFieldType ctx field sh_implicit
      (subgraph_info.map (fun p => p.1))
  else
    apply_field_apps parseFieldType ctx type_name field subgraph_info
      sh_explicit field.joinFieldApps

/-- The per-field algorithm of `extract_object_type_content`: with no
`@join__field` the field is in all owning subgraphs, `@shareable` iff the
type is in more than one subgraph; otherwise shareability is
`fieldShareability` of the applications. -/
def extract_object_field (parseFieldType : String → Option GType)
    (ctx : ExtractContext) (type_name : GName)
    (subgraph_info : List (GName × Bool)) (field : FieldDef) :
    Except FedError (List (String × SubgraphField)) :=
  extract_object_field_core parseFieldType ctx type_name subgraph_info field
    (decide (subgraph_info.length > 1))
    (fieldShareability field.joinFieldApps)

/-- The two destination kinds `get_pos` can return. -/
inductive ObjOrIntf
  | object
  | interface
deriving DecidableEq, Repr

/-- `get_pos` from `extract_interface_type_content`: resolve the destination
type for a graph through the TypeInfo's `is_interface_object` flag.
`stored` gives the kind under which the subgraph of a graph enum value
actually stores this type. A graph without type-level `@join__type` is a
malformed-supergraph error; a stored kind inconsistent with the flag is an
internal-invariant error. -/
def get_pos (stored : GName → Option TypeKind)
    (subgraph_info : List (GName × Bool)) (g : GName) (type_name : GName) :
    Except FedError ObjOrIntf :=
  match subgraph_info.lookup g with
  | none => .error (.invalidFederationSupergraph
      ("@join__implements cannot exist on " ++ type_name ++
       " for subgraph " ++ g ++ " without type-level @join__type"))
  | some is_interface_object =>
    match stored g with
    | some .object =>
      if !is_interface_object then
        .error (.internal
          "extract_interface_type_content encountered an unexpected interface object type in subgraph")
      else .ok .object
    | some .interface =>
      if is_interface_object then
        .error (.internal
          "extract_interface_type_content encountered an interface type in subgraph that should have been an interface object")
      else .ok .interface
    | some _ => .error (.internal
        "extract_interface_type_content encountered non-object/interface type in subgraph")
    | none => .error (.internal
        "type missing from subgraph schema")

/-- The implicit branch of interface-field extraction: as `fan_out_field`
but resolving the destination through `get_pos`, and with `is_shareable`
passed as `false`. -/
def fan_out_interface_field (parseFieldType : String → Option GType)
    (ctx : ExtractContext) (stored : GName → Option TypeKind)
    (subgraph_info : List (GName × Bool)) (type_name : GName)
    (field : FieldDef) :
    List GName → Except FedError (List (String × ObjOrIntf × SubgraphField))
  | [] => .ok []
  | g :: gs =>
    match get_subgraph_name ctx g with
    | .error e => .error e
    | .ok n =>
      match get_pos stored subgraph_info g type_name with
      | .error e => .error e
      | .ok pos =>
        match require_fed_spec ctx g with
        | .error e => .error e
        | .ok _ =>
          match add_subgraph_field parseFieldType field false none with
          | .error e => .error e
          | .ok f =>
            match fan_out_interface_field parseFieldType ctx stored
                subgraph_info type_name field gs with
            | .error e => .error e
            | .ok rest => .ok ((n, pos, f) :: rest)

/-- The explicit branch of interface-field extraction: as `apply_field_apps`
but resolving the destination through `get_pos` (whose ownership failure
precedes the explicit ownership check, making the latter unreachable),
and with `is_shareable` passed as `false`. -/
def apply_interface_field_apps (parseFieldType : String → Option GType)
    (ctx : ExtractContext) (stored : GName → Option TypeKind)
    (subgraph_info : List (GName × Bool)) (type_name : GName)
    (field : FieldDef) :
    List FieldDirectiveArguments →
    Except FedError (List (String × ObjOrIntf × SubgraphField))
  | [] => .ok []
  | app :: rest =>
    match app.graph with
    | none =>
      apply_interface_field_apps parseFieldType ctx stored subgraph_info
        type_name field rest
    | some g =>
      match get_subgraph_name ctx g with
      | .error e => .error e
      | .ok n =>
        match get_pos stored subgraph_info g type_name with
        | .error e => .error e
        | .ok pos =>
          match require_fed_spec ctx g with
          | .error e => .error e
          | .ok _ =>
            if (subgraph_info.lookup g).isSome then
              match add_subgraph_field parseFieldType field false
                  (some app) with
              | .error e => .error e
              | .ok f =>
                match apply_interface_field_apps parseFieldType ctx stored
                    subgraph_info type_name field rest with
                | .error e => .error e
                | .ok out => .ok ((n, pos, f) :: out)
            else
              .error (.invalidFederationSupergraph
                ("@join__field cannot exist on " ++ type_name ++ "." ++
                 field.name ++ " for subgraph " ++ g ++
                 " without type-level @join__type"))

/-- The per-field algorithm of `extract_interface_type_content`. -/
def extract_interface_field (parseFieldType : String → Option GType)
    (ctx : ExtractContext) (stored : GName → Option TypeKind)
    (subgraph_info : List (GName × Bool)) (type_name : GName)
    (field : FieldDef) :
    Except FedError (List (String × ObjOrIntf × SubgraphField)) :=
  if field.joinFieldApps.isEmpty then
    fan_out_interface_field parseFieldType ctx stored subgraph_info
      type_name field (subgraph_info.map (fun p => p.1))
  else
    apply_interface_field_apps parseFieldType ctx stored subgraph_info
      type_name field field.joinFieldApps

/-- Type-definition insertion (`pre_insert` + `insert` on a type position):
rejects a duplicate type name. -/
def insertType (s : SubSchema) (t : TypeDef) : Except FedError SubSchema :=
  if s.types.any (fun u => u.name == t.name) then
    .error (.internal ("type already exists in subgraph: " ++ t.name))
  else
    .ok { s with types := s.types ++ [t] }

/-- Member (field / input field / union member / enum value) insertion into
a named type of a subgraph schema.

Modelled from the spec: the position `insert` operations of
`schema/position.rs` are not under the provided sources; per §4.7
("replacing any prior definition") insertion replaces an existing member
of the same name, and inserting into a type the subgraph does not define
is an error. -/
def upsertList (m : MemberDef) (ms : List MemberDef) : List MemberDef :=
  if ms.any (fun x => x.name == m.name) then
    ms.map (fun x => if x.name == m.name then m else x)
  else ms ++ [m]

/-- Member insertion into a named type of a subgraph schema (see
`upsertList`). -/
def upsertMember (s : SubSchema) (tyName : GName) (m : MemberDef) :
    Except FedError SubSchema :=
  if s.types.any (fun t => t.name == tyName) then
    .ok { s with types := s.types.map (fun t =>
      if t.name == tyName then { t with members := upsertList m t.members }
      else t) }
  else
    .error (.internal ("type missing from subgraph: " ++ tyName))

/-- Member removal from a named type of a subgraph schema.

Modelled from the spec: the position `remove` of `schema/position.rs` is
not under the provided sources; per §4.7 removal of an absent member is a
no-op ("explicitly remove any prior `_entities` field"), while the
enclosing type must exist. -/
def removeMember (s : SubSchema) (tyName : GName) (mName : GName) :
    Except FedError SubSchema :=
  if s.types.any (fun t => t.name == tyName) then
    .ok { s with types := s.types.map (fun t =>
      if t.name == tyName then
        { t with members := t.members.filter (fun x => !(x.name == mName)) }
      else t) }
  else
    .error (.internal ("type missing from subgraph: " ++ tyName))

/-- Adding an implements-interface entry to a named type
(`insert_implements_interface`). -/
def insertImplements (s : SubSchema) (tyName : GName) (itf : GName) :
    Except FedError SubSchema :=
  if s.types.any (fun t => t.name == tyName) then
    .ok { s with types := s.types.map (fun t =>
      if t.name == tyName then { t with implements := t.implements ++ [itf] }
      else t) }
  else
    .error (.internal ("type missing from subgraph: " ++ tyName))

/-- Attaching a `@key` directive to a named type (`insert_directive` with
the key directive built by `add_empty_type`). -/
def setHasKey (s : SubSchema) (tyName : GName) : Except FedError SubSchema :=
  if s.types.any (fun t => t.name == tyName) then
    .ok { s with types := s.types.map (fun t =>
      if t.name == tyName then { t with hasKey := true } else t) }
  else
    .error (.internal ("type missing from subgraph: " ++ tyName))

/-- Apply a schema transformation to the subgraph of a given name
(`subgraphs.get_mut`): the name must have been created by
`collect_empty_subgraphs`. -/
def modifySubgraph (subs : Subgraphs) (n : String)
    (f : SubSchema → Except FedError SubSchema) :
    Except FedError Subgraphs :=
  if subs.any (fun u => u.name == n) then
    match (subs.find? (fun u => u.name == n)).map
        (fun u => f u.schema) with
    | some (.error e) => .error e
    | some (.ok sch) =>
      .ok (subs.map (fun u => if u.name == n then
        { u with schema := sch } else u))
    | none => .error (.internal "unreachable: find? after any")
  else
    .error (.internal
      "All subgraphs should have been created by collect_empty_subgraphs")

/-- `get_subgraph` followed by a schema mutation: resolve the graph enum
value to a subgraph name, then modify that subgraph. -/
def withSubgraph (ctx : ExtractContext) (subs : Subgraphs) (g : GName)
    (f : SubSchema → Except FedError SubSchema) :
    Except FedError Subgraphs :=
  match get_subgraph_name ctx g with
  | .error e => .error e
  | .ok n => modifySubgraph subs n f

/-- `TypeInfo`: the per-type record of owning graphs and their
`is_interface_object` flags, in insertion order. -/
structure TypeInfo where
  name : GName
  subgraph_info : List (GName × Bool)
deriving DecidableEq, Repr

/-- The scalar special case of `add_all_empty_subgraph_types`: for each
`@join__type` application, declare the scalar in the named subgraph. No
`TypeInfo` is tracked and no emptiness check is made. -/
def insert_scalar_apps (ctx : ExtractContext) (tyName : GName) :
    Subgraphs → List TypeDirectiveArguments → Except FedError Subgraphs
  | subs, [] => .ok subs
  | subs, app :: rest =>
    match withSubgraph ctx subs app.graph (fun sch =>
        insertType sch { name := tyName, kind := .scalar, hasKey := false,
                         hasInterfaceObject := false, implements := [],
                         members := [] }) with
    | .error e => .error e
    | .ok subs => insert_scalar_apps ctx tyName subs rest

/-- The empty shell `add_empty_type` creates in a subgraph for one
supergraph type: the matching kind, except that an interface whose
application carries `is_interface_object` becomes an object marked with
the interface-object directive. -/
def emptyShell (t : SupergraphType) (is_interface_object : Bool) : TypeDef :=
  if t.kind == TypeKind.interface && is_interface_object then
    { name := t.name, kind := .object, hasKey := false,
      hasInterfaceObject := true, implements := [], members := [] }
  else
    { name := t.name, kind := t.kind, hasKey := false,
      hasInterfaceObject := false, implements := [], members := [] }

/-- Shell insertion plus root wiring from `add_empty_type`'s object branch:
an object named `Query`, `Mutation` or `Subscription` becomes the
corresponding schema root when no root of that kind exists yet. Root
wiring only happens for supergraph object types (the source's
`TypeDefinitionPosition::Object` arm), not interface-object shells. -/
def insert_shell (t : SupergraphType) (is_interface_object : Bool)
    (sch : SubSchema) : Except FedError SubSchema :=
  match insertType sch (emptyShell t is_interface_object) with
  | .error e => .error e
  | .ok sch =>
    if t.kind == TypeKind.object then
      if t.name == "Query" && sch.queryRoot.isNone then
        .ok { sch with queryRoot := some t.name }
      else if t.name == "Mutation" && sch.mutationRoot.isNone then
        .ok { sch with mutationRoot := some t.name }
      else if t.name == "Subscription" && sch.subscriptionRoot.isNone then
        .ok { sch with subscriptionRoot := some t.name }
      else .ok sch
    else .ok sch

/-- One `@join__type` application step of `add_empty_type`: resolve the
subgraph, require its federation spec info (an internal-invariant error
when absent), create the shell if this graph was not yet recorded, and
attach a `@key` directive when the application carries a key field set. -/
def add_empty_type_app (ctx : ExtractContext) (t : SupergraphType)
    (info : TypeInfo) (subs : Subgraphs)
    (app : TypeDirectiveArguments) :
    Except FedError (TypeInfo × Subgraphs) :=
  match get_subgraph_name ctx app.graph with
  | .error e => .error e
  | .ok n =>
    if !(ctx.fedSpecGraphs.contains app.graph) then
      .error (.internal
        ("Missing federation spec info for subgraph enum value " ++
         app.graph))
    else
      match
        (if (info.subgraph_info.lookup app.graph).isSome then
          .ok (info, subs)
        else
          if t.kind == TypeKind.scalar then
            .error (.internal "add_empty_type shouldn't be called for scalars")
          else
            let iio :=
              t.kind == TypeKind.interface && app.is_interface_object
            match modifySubgraph subs n (insert_shell t iio) with
            | .error e => .error e
            | .ok subs =>
              .ok ({ info with
                      subgraph_info := info.subgraph_info ++
                        [(app.graph, iio)] }, subs) :
        Except FedError (TypeInfo × Subgraphs)) with
      | .error e => .error e
      | .ok (info, subs) =>
        match app.key with
        | none => .ok (info, subs)
        | some _ =>
          match modifySubgraph subs n (fun sch => setHasKey sch t.name) with
          | .error e => .error e
          | .ok subs => .ok (info, subs)

/-- The fold of `add_empty_type` over a type's `@join__type`
applications. -/
def add_empty_type_apps (ctx : ExtractContext) (t : SupergraphType) :
    TypeInfo → Subgraphs → List TypeDirectiveArguments →
    Except FedError (TypeInfo × Subgraphs)
  | info, subs, [] => .ok (info, subs)
  | info, subs, app :: rest =>
    match add_empty_type_app ctx t info subs app with
    | .error e => .error e
    | .ok (info, subs) => add_empty_type_apps ctx t info subs rest

/-- `add_empty_type`: a type with zero `@join__type` applications is a
malformed-supergraph error ("Missing @join__type"); otherwise each
application contributes a shell and the `TypeInfo` records the owning
graphs. -/
def add_empty_type (ctx : ExtractContext) (subs : Subgraphs)
    (t : SupergraphType) : Except FedError (TypeInfo × Subgraphs) :=
  if t.joinTypeApps.isEmpty then
    .error (.invalidFederationSupergraph
      ("Missing @join__type on " ++ t.name))
  else
    add_empty_type_apps ctx t { name := t.name, subgraph_info := [] } subs
      t.joinTypeApps

/-- The per-type dispatch of `add_all_empty_subgraph_types`: scalars are
declared application-by-application with no `TypeInfo` and no emptiness
check; every other kind goes through `add_empty_type`. -/
def scaffold_type (ctx : ExtractContext) (subs : Subgraphs)
    (t : SupergraphType) :
    Except FedError (Subgraphs × Option TypeInfo) :=
  match t.kind with
  | .scalar =>
    match insert_scalar_apps ctx t.name subs t.joinTypeApps with
    | .error e => .error e
    | .ok subs => .ok (subs, none)
  | _ =>
    match add_empty_type ctx subs t with
    | .error e => .error e
    | .ok (info, subs) => .ok (subs, some info)

/-- `TypeInfos`: the scaffolding results bucketed by kind. -/
structure TypeInfos where
  object_types : List TypeInfo
  interface_types : List TypeInfo
  union_types : List TypeInfo
  enum_types : List TypeInfo
  input_object_types : List TypeInfo
deriving DecidableEq, Repr

/-- Insert a scaffolded `TypeInfo` in the bucket of its kind. -/
def TypeInfos.push (infos : TypeInfos) (k : TypeKind) (i : TypeInfo) :
    TypeInfos :=
  match k with
  | .object => { infos with object_types := infos.object_types ++ [i] }
  | .interface =>
    { infos with interface_types := infos.interface_types ++ [i] }
  | .union => { infos with union_types := infos.union_types ++ [i] }
  | .enum => { infos with enum_types := infos.enum_types ++ [i] }
  | .inputObject =>
    { infos with input_object_types := infos.input_object_types ++ [i] }
  | .scalar => infos

/-- `add_all_empty_subgraph_types`: scaffold every filtered supergraph type
and bucket the `TypeInfo`s by kind. -/
def add_all_empty_subgraph_types (ctx : ExtractContext) :
    Subgraphs → TypeInfos → List SupergraphType →
    Except FedError (Subgraphs × TypeInfos)
  | subs, infos, [] => .ok (subs, infos)
  | subs, infos, t :: rest =>
    match scaffold_type ctx subs t with
    | .error e => .error e
    | .ok (subs, none) => add_all_empty_subgraph_types ctx subs infos rest
    | .ok (subs, some info) =>
      add_all_empty_subgraph_types ctx subs (infos.push t.kind info) rest

/-- The collection predicate of `remove_unused_types_from_subgraph`:
object/interface types with zero fields, unions with zero members, and
input-objects with zero fields are candidates for removal; enums and
scalars never are. -/
def prunableKind : TypeKind → Bool
  | .object => true
  | .interface => true
  | .union => true
  | .inputObject => true
  | .enum => false
  | .scalar => false

/-- Drop from a type every member that structurally references a removed
type name. -/
def dropRefsTo (n : GName) (t : TypeDef) : TypeDef :=
  { t with members := t.members.filter (fun m => !(m.refTy == some n)) }

/-- The type-level removal of `remove_unused_types_from_subgraph`, with an
explicit step bound (each step removes at least one type, so a bound equal
to the number of types reaches the fixpoint; see `pruneTypes`).

Modelled from the spec: `remove_recursive` lives in `schema/position.rs`,
outside the provided sources; per §4.6 it removes each empty shell "and
everything that structurally depends on it (recursive removal)". This is
implemented as: while some type of prunable kind has zero members, remove
it, drop every member referencing it, and continue (so a type emptied by
the cascade is itself removed). -/
def pruneTypesFuel : Nat → List TypeDef → List TypeDef
  | 0, ts => ts
  | fuel + 1, ts =>
    match ts.find? (fun t => prunableKind t.kind && t.members.isEmpty) with
    | none => ts
    | some t =>
      pruneTypesFuel fuel ((ts.filter (fun u => !(u.name == t.name))).map
        (dropRefsTo t.name))

/-- The recursive removal of every empty shell of prunable kind (see
`pruneTypesFuel`). -/
def pruneTypes (ts : List TypeDef) : List TypeDef :=
  pruneTypesFuel ts.length ts

/-- `remove_unused_types_from_subgraph`: collect and recursively remove
every empty shell of prunable kind. A schema root or directive definition
depending on a removed type goes with it (modelled from the spec, §4.6:
"everything that structurally depends on it"). -/
def remove_unused_types_from_subgraph (s : SubSchema) : SubSchema :=
  let ts := pruneTypes s.types
  let removed := s.types.filterMap (fun t =>
    if ts.any (fun u => u.name == t.name) then none else some t.name)
  { types := ts
    queryRoot := s.queryRoot.filter (fun n => !(removed.contains n))
    mutationRoot := s.mutationRoot.filter (fun n => !(removed.contains n))
    subscriptionRoot :=
      s.subscriptionRoot.filter (fun n => !(removed.contains n))
    directiveDefs := s.directiveDefs.filter (fun d =>
      !(d.arguments.any (fun a => removed.contains a.ty.baseName))) }

/-- `all_executable_directive_definitions`: the supergraph directive
definitions having at least one executable location, restricted to their
executable locations, with argument directives (and descriptions)
stripped. -/
def all_executable_directive_definitions (sg : Supergraph) :
    List DirectiveDef :=
  sg.directiveDefs.filterMap (fun d =>
    let executable_locations :=
      d.locations.filter (fun l => EXECUTABLE_DIRECTIVE_LOCATIONS.contains l)
    if executable_locations.isEmpty then none
    else some { name := d.name
                arguments := d.arguments.map
                  (fun a => { a with directives := [] })
                repeatable := d.repeatable
                locations := executable_locations })

/-- `DirectiveDefinitionPosition::insert` of one copied definition. -/
def insert_directive_definition (s : SubSchema) (d : DirectiveDef) :
    SubSchema :=
  { s with directiveDefs := s.directiveDefs ++ [d] }

/-- The directive-propagation stage in isolation: append every copied
definition to the subgraph. -/
def copy_directive_definitions (defs : List DirectiveDef) (s : SubSchema) :
    SubSchema :=
  { s with directiveDefs := s.directiveDefs ++ defs }

/-- The per-subgraph tail of `extract_subgraphs_from_fed_2_supergraph`
(source lines 378-387): first `remove_unused_types_from_subgraph`, then the
insertion of every executable directive definition. -/
def finish_subgraph (defs : List DirectiveDef) (s : SubSchema) : SubSchema :=
  defs.foldl insert_directive_definition
    (remove_unused_types_from_subgraph s)

/-- The object types of a subgraph carrying a `@key` directive
(`entity_members` in `add_federation_operations`). -/
def keyedObjectNames (ts : List TypeDef) : List GName :=
  ts.filterMap (fun t =>
    if t.kind == TypeKind.object && t.hasKey then some t.name else none)

/-- The `_Any` scalar added to every subgraph. -/
def anyScalarDef : TypeDef :=
  { name := "_Any", kind := .scalar, hasKey := false,
    hasInterfaceObject := false, implements := [], members := [] }

/-- The `_Service` object with its `sdl: String` field. -/
def serviceTypeDef : TypeDef :=
  { name := "_Service", kind := .object, hasKey := false,
    hasInterfaceObject := false, implements := [],
    members := [{ name := "sdl",
                  payload := .field { name := "sdl", arguments := [],
                                      ty := .named "String",
                                      directives := [] } }] }

/-- The `_Entity` union over the keyed object types. -/
def entityUnionDef (members : List GName) : TypeDef :=
  { name := "_Entity", kind := .union, hasKey := false,
    hasInterfaceObject := false, implements := [],
    members := members.map (fun n =>
      { name := n, payload := .unionMember n }) }

/-- The synthesized empty `Query` root object. -/
def emptyQueryDef : TypeDef :=
  { name := "Query", kind := .object, hasKey := false,
    hasInterfaceObject := false, implements := [], members := [] }

/-- The `_entities(representations: [_Any!]!): [_Entity]!` field. -/
def entitiesFieldMember : MemberDef :=
  { name := "_entities",
    payload := .field
      { name := "_entities",
        arguments := [{ name := "representations",
                        ty := .nonNull (.list (.nonNull (.named "_Any"))),
                        defaultValue := none, directives := [] }],
        ty := .nonNull (.list (.named "_Entity")),
        directives := [] } }

/-- The `_service: _Service!` field. -/
def serviceFieldMember : MemberDef :=
  { name := "_service",
    payload := .field { name := "_service", arguments := [],
                        ty := .nonNull (.named "_Service"),
                        directives := [] } }

/-- `add_federation_operations`: unconditionally add `_Any` and `_Service`;
compute the keyed object types; when non-empty add the `_Entity` union over
them; ensure a `Query` root (synthesizing an empty one when absent); add or
remove `_entities` on the root according to whether keyed types exist; and
always add `_service`. -/
def add_federation_operations (s : SubSchema) :
    Except FedError SubSchema :=
  match insertType s anyScalarDef with
  | .error e => .error e
  | .ok s1 =>
    match insertType s1 serviceTypeDef with
    | .error e => .error e
    | .ok s2 =>
      match (if !(keyedObjectNames s2.types).isEmpty then
               insertType s2 (entityUnionDef (keyedObjectNames s2.types))
             else .ok s2) with
      | .error e => .error e
      | .ok s3 =>
        match (match s3.queryRoot with
               | some _ => .ok s3
               | none =>
                 match insertType s3 emptyQueryDef with
                 | .error e => .error e
                 | .ok s => .ok { s with queryRoot := some "Query" } :
               Except FedError SubSchema) with
        | .error e => .error e
        | .ok s4 =>
          match s4.queryRoot with
          | none => .error (.internal "unreachable: query root just ensured")
          | some rootName =>
            match (if !(keyedObjectNames s2.types).isEmpty then
                     upsertMember s4 rootName entitiesFieldMember
                   else removeMember s4 rootName "_entities") with
            | .error e => .error e
            | .ok s5 => upsertMember s5 rootName serviceFieldMember

/-- A supergraph type lookup by position (`pos.get`): the type must exist
under the expected kind. -/
def lookupSupergraphType (sg : Supergraph) (n : GName) (k : TypeKind) :
    Except FedError SupergraphType :=
  match sg.types.find? (fun t => t.name == n) with
  | some t =>
    if t.kind == k then .ok t
    else .error (.internal ("type kind mismatch for " ++ n))
  | none => .error (.internal ("type not found in supergraph: " ++ n))

/-- The kind under which the subgraph reached through a graph enum value
currently stores a type of the given name (`subgraph.schema.get_type`). -/
def storedKindIn (ctx : ExtractContext) (subs : Subgraphs)
    (tyName : GName) (g : GName) : Option TypeKind :=
  match ctx.graphToSubgraph.lookup g with
  | none => none
  | some n =>
    match subs.find? (fun u => u.name == n) with
    | none => none
    | some u =>
      (u.schema.types.find? (fun t => t.name == tyName)).map
        (fun t => t.kind)

/-- The `@join__implements` loop of `extract_object_type_content`: ownership
check first, then subgraph resolution and insertion. -/
def object_implements_apps (ctx : ExtractContext) (tyName : GName)
    (subgraph_info : List (GName × Bool)) :
    Subgraphs → List ImplementsArgs → Except FedError Subgraphs
  | subs, [] => .ok subs
  | subs, app :: rest =>
    if (subgraph_info.lookup app.graph).isSome then
      match withSubgraph ctx subs app.graph (fun sch =>
          insertImplements sch tyName app.interface_) with
      | .error e => .error e
      | .ok subs =>
        object_implements_apps ctx tyName subgraph_info subs rest
    else
      .error (.invalidFederationSupergraph
        ("@join__implements cannot exist on " ++ tyName ++
         " for subgraph " ++ app.graph ++
         " without type-level @join__type"))

/-- The `@join__implements` loop of `extract_interface_type_content`:
subgraph resolution, then destination resolution through `get_pos`, then
insertion. -/
def interface_implements_apps (ctx : ExtractContext) (tyName : GName)
    (subgraph_info : List (GName × Bool)) :
    Subgraphs → List ImplementsArgs → Except FedError Subgraphs
  | subs, [] => .ok subs
  | subs, app :: rest =>
    match get_subgraph_name ctx app.graph with
    | .error e => .error e
    | .ok n =>
      match get_pos (storedKindIn ctx subs tyName) subgraph_info app.graph
          tyName with
      | .error e => .error e
      | .ok _ =>
        match modifySubgraph subs n (fun sch =>
            insertImplements sch tyName app.interface_) with
        | .error e => .error e
        | .ok subs =>
          interface_implements_apps ctx tyName subgraph_info subs rest

/-- Insert the synthesized fields of one supergraph field into their
subgraphs. -/
def insert_subgraph_fields (tyName : GName) :
    Subgraphs → List (String × SubgraphField) → Except FedError Subgraphs
  | subs, [] => .ok subs
  | subs, (n, f) :: rest =>
    match modifySubgraph subs n (fun sch =>
        upsertMember sch tyName { name := f.name, payload := .field f }) with
    | .error e => .error e
    | .ok subs => insert_subgraph_fields tyName subs rest

/-- The field loop of `extract_object_type_content`. -/
def extract_object_fields (parseFieldType : String → Option GType)
    (ctx : ExtractContext) (tyName : GName)
    (subgraph_info : List (GName × Bool)) :
    Subgraphs → List FieldDef → Except FedError Subgraphs
  | subs, [] => .ok subs
  | subs, field :: rest =>
    match extract_object_field parseFieldType ctx tyName subgraph_info
        field with
    | .error e => .error e
    | .ok out =>
      match insert_subgraph_fields tyName subs out with
      | .error e => .error e
      | .ok subs =>
        extract_object_fields parseFieldType ctx tyName subgraph_info subs
          rest

/-- `extract_object_type_content`. -/
def extract_object_type_content (parseFieldType : String → Option GType)
    (ctx : ExtractContext) (sg : Supergraph) :
    Subgraphs → List TypeInfo → Except FedError Subgraphs
  | subs, [] => .ok subs
  | subs, info :: rest =>
    match lookupSupergraphType sg info.name .object with
    | .error e => .error e
    | .ok t =>
      match object_implements_apps ctx info.name info.subgraph_info subs
          t.joinImplementsApps with
      | .error e => .error e
      | .ok subs =>
        match extract_object_fields parseFieldType ctx info.name
            info.subgraph_info subs t.fields with
        | .error e => .error e
        | .ok subs =>
          extract_object_type_content parseFieldType ctx sg subs rest

/-- The field loop of `extract_interface_type_content`: per-field results
carry the resolved destination kind, which selects the insertion position
(object or interface) of the same named type. -/
def extract_interface_fields (parseFieldType : String → Option GType)
    (ctx : ExtractContext) (tyName : GName)
    (subgraph_info : List (GName × Bool)) :
    Subgraphs → List FieldDef → Except FedError Subgraphs
  | subs, [] => .ok subs
  | subs, field :: rest =>
    match extract_interface_field parseFieldType ctx
        (storedKindIn ctx subs tyName) subgraph_info tyName field with
    | .error e => .error e
    | .ok out =>
      match insert_subgraph_fields tyName subs
          (out.map (fun x => (x.1, x.2.2))) with
      | .error e => .error e
      | .ok subs =>
        extract_interface_fields parseFieldType ctx tyName subgraph_info
          subs rest

/-- `extract_interface_type_content`. -/
def extract_interface_type_content (parseFieldType : String → Option GType)
    (ctx : ExtractContext) (sg : Supergraph) :
    Subgraphs → List TypeInfo → Except FedError Subgraphs
  | subs, [] => .ok subs
  | subs, info :: rest =>
    match lookupSupergraphType sg info.name .interface with
    | .error e => .error e
    | .ok t =>
      match interface_implements_apps ctx info.name info.subgraph_info subs
          t.joinImplementsApps with
      | .error e => .error e
      | .ok subs =>
        match extract_interface_fields parseFieldType ctx info.name
            info.subgraph_info subs t.fields with
        | .error e => .error e
        | .ok subs =>
          extract_interface_type_content parseFieldType ctx sg subs rest

/-- Insert a list of union members into a union of a subgraph schema. -/
def insert_union_members (tyName : GName) :
    SubSchema → List GName → Except FedError SubSchema
  | sch, [] => .ok sch
  | sch, m :: rest =>
    match upsertMember sch tyName { name := m, payload := .unionMember m }
        with
    | .error e => .error e
    | .ok sch => insert_union_members tyName sch rest

/-- The implicit branch of `extract_union_type_content`: every supergraph
member that the subgraph also defines is added there. -/
def union_implicit_fan_out (ctx : ExtractContext) (tyName : GName)
    (supergraph_members : List GName) :
    Subgraphs → List GName → Except FedError Subgraphs
  | subs, [] => .ok subs
  | subs, g :: gs =>
    match withSubgraph ctx subs g (fun sch =>
        insert_union_members tyName sch
          (supergraph_members.filter (fun m =>
            sch.types.any (fun t => t.name == m)))) with
    | .error e => .error e
    | .ok subs =>
      union_implicit_fan_out ctx tyName supergraph_members subs gs

/-- The explicit branch of `extract_union_type_content`: one
`@join__unionMember` application names one member for one subgraph, which
must own the union. -/
def union_member_apps (ctx : ExtractContext) (tyName : GName)
    (subgraph_info : List (GName × Bool)) :
    Subgraphs → List UnionMemberArgs → Except FedError Subgraphs
  | subs, [] => .ok subs
  | subs, app :: rest =>
    match get_subgraph_name ctx app.graph with
    | .error e => .error e
    | .ok n =>
      if (subgraph_info.lookup app.graph).isSome then
        match modifySubgraph subs n (fun sch =>
            upsertMember sch tyName
              { name := app.member, payload := .unionMember app.member })
            with
        | .error e => .error e
        | .ok subs => union_member_apps ctx tyName subgraph_info subs rest
      else
        .error (.invalidFederationSupergraph
          ("@join__unionMember cannot exist on " ++ tyName ++
           " for subgraph " ++ app.graph ++
           " without type-level @join__type"))

/-- `extract_union_type_content`. -/
def extract_union_type_content (ctx : ExtractContext) (sg : Supergraph) :
    Subgraphs → List TypeInfo → Except FedError Subgraphs
  | subs, [] => .ok subs
  | subs, info :: rest =>
    match lookupSupergraphType sg info.name .union with
    | .error e => .error e
    | .ok t =>
      match (if t.joinUnionMemberApps.isEmpty then
               union_implicit_fan_out ctx info.name t.unionMembers subs
                 (info.subgraph_info.map (fun p => p.1))
             else
               union_member_apps ctx info.name info.subgraph_info subs
                 t.joinUnionMemberApps) with
      | .error e => .error e
      | .ok subs => extract_union_type_content ctx sg subs rest

/-- Insert one enum value into the named subgraphs. -/
def insert_enum_value (ctx : ExtractContext) (tyName : GName)
    (valueName : GName) :
    Subgraphs → List GName → Except FedError Subgraphs
  | subs, [] => .ok subs
  | subs, g :: gs =>
    match withSubgraph ctx subs g (fun sch =>
        upsertMember sch tyName
          { name := valueName, payload := .enumValue }) with
    | .error e => .error e
    | .ok subs => insert_enum_value ctx tyName valueName subs gs

/-- The explicit branch of the enum value loop: each `@join__enumValue`
names a subgraph, which must own the enum. -/
def enum_value_apps (ctx : ExtractContext) (tyName : GName)
    (valueName : GName) (subgraph_info : List (GName × Bool)) :
    Subgraphs → List GName → Except FedError Subgraphs
  | subs, [] => .ok subs
  | subs, g :: gs =>
    match get_subgraph_name ctx g with
    | .error e => .error e
    | .ok n =>
      if (subgraph_info.lookup g).isSome then
        match modifySubgraph subs n (fun sch =>
            upsertMember sch tyName
              { name := valueName, payload := .enumValue }) with
        | .error e => .error e
        | .ok subs =>
          enum_value_apps ctx tyName valueName subgraph_info subs gs
      else
        .error (.invalidFederationSupergraph
          ("@join__enumValue cannot exist on " ++ tyName ++ "." ++
           valueName ++ " for subgraph " ++ g ++
           " without type-level @join__type"))

/-- The value loop of `extract_enum_type_content`. -/
def extract_enum_values (ctx : ExtractContext) (tyName : GName)
    (subgraph_info : List (GName × Bool)) :
    Subgraphs → List EnumValueDef → Except FedError Subgraphs
  | subs, [] => .ok subs
  | subs, v :: rest =>
    match (if v.joinEnumValueApps.isEmpty then
             insert_enum_value ctx tyName v.name subs
               (subgraph_info.map (fun p => p.1))
           else
             enum_value_apps ctx tyName v.name subgraph_info subs
               v.joinEnumValueApps) with
    | .error e => .error e
    | .ok subs => extract_enum_values ctx tyName subgraph_info subs rest

/-- `extract_enum_type_content`. -/
def extract_enum_type_content (ctx : ExtractContext) (sg : Supergraph) :
    Subgraphs → List TypeInfo → Except FedError Subgraphs
  | subs, [] => .ok subs
  | subs, info :: rest =>
    match lookupSupergraphType sg info.name .enum with
    | .error e => .error e
    | .ok t =>
      match extract_enum_values ctx info.name info.subgraph_info subs
          t.enumValues with
      | .error e => .error e
      | .ok subs => extract_enum_type_content ctx sg subs rest

/-- The implicit branch of the input-field loop. -/
def input_field_fan_out (parseFieldType : String → Option GType)
    (ctx : ExtractContext) (tyName : GName) (input_field : InputFieldDef) :
    Subgraphs → List GName → Except FedError Subgraphs
  | subs, [] => .ok subs
  | subs, g :: gs =>
    match add_subgraph_input_field parseFieldType input_field none with
    | .error e => .error e
    | .ok v =>
      match withSubgraph ctx subs g (fun sch =>
          upsertMember sch tyName
            { name := v.name, payload := .inputField v }) with
      | .error e => .error e
      | .ok subs =>
        input_field_fan_out parseFieldType ctx tyName input_field subs gs

/-- The explicit branch of the input-field loop: graph-less applications
are skipped; a named subgraph must own the type; no shareable/external/
requires/provides semantics apply. -/
def input_field_apps (parseFieldType : String → Option GType)
    (ctx : ExtractContext) (tyName : GName)
    (subgraph_info : List (GName × Bool)) (input_field : InputFieldDef) :
    Subgraphs → List FieldDirectiveArguments → Except FedError Subgraphs
  | subs, [] => .ok subs
  | subs, app :: rest =>
    match app.graph with
    | none =>
      input_field_apps parseFieldType ctx tyName subgraph_info input_field
        subs rest
    | some g =>
      match get_subgraph_name ctx g with
      | .error e => .error e
      | .ok n =>
        if (subgraph_info.lookup g).isSome then
          match add_subgraph_input_field parseFieldType input_field
              (some app) with
          | .error e => .error e
          | .ok v =>
            match modifySubgraph subs n (fun sch =>
                upsertMember sch tyName
                  { name := v.name, payload := .inputField v }) with
            | .error e => .error e
            | .ok subs =>
              input_field_apps parseFieldType ctx tyName subgraph_info
                input_field subs rest
        else
          .error (.invalidFederationSupergraph
            ("@join__field cannot exist on " ++ tyName ++ "." ++
             input_field.name ++ " for subgraph " ++ g ++
             " without type-level @join__type"))

/-- The field loop of `extract_input_object_type_content`. -/
def extract_input_fields (parseFieldType : String → Option GType)
    (ctx : ExtractContext) (tyName : GName)
    (subgraph_info : List (GName × Bool)) :
    Subgraphs → List InputFieldDef → Except FedError Subgraphs
  | subs, [] => .ok subs
  | subs, input_field :: rest =>
    match (if input_field.joinFieldApps.isEmpty then
             input_field_fan_out parseFieldType ctx tyName input_field subs
               (subgraph_info.map (fun p => p.1))
           else
             input_field_apps parseFieldType ctx tyName subgraph_info
               input_field subs input_field.joinFieldApps) with
    | .error e => .error e
    | .ok subs =>
      extract_input_fields parseFieldType ctx tyName subgraph_info subs rest

/-- `extract_input_object_type_content`. -/
def extract_input_object_type_content
    (parseFieldType : String → Option GType) (ctx : ExtractContext)
    (sg : Supergraph) :
    Subgraphs → List TypeInfo → Except FedError Subgraphs
  | subs, [] => .ok subs
  | subs, info :: rest =>
    match lookupSupergraphType sg info.name .inputObject with
    | .error e => .error e
    | .ok t =>
      match extract_input_fields parseFieldType ctx info.name
          info.subgraph_info subs t.inputFields with
      | .error e => .error e
      | .ok subs =>
        extract_input_object_type_content parseFieldType ctx sg subs rest

/-- `extract_subgraphs_from_fed_2_supergraph`: scaffolding, the five content
extractors in order, then per subgraph the orphan pruning followed by the
copy of the executable directive definitions. -/
def extract_subgraphs_from_fed_2_supergraph
    (parseFieldType : String → Option GType) (ctx : ExtractContext)
    (sg : Supergraph) (subs : Subgraphs)
    (filtered_types : List SupergraphType) : Except FedError Subgraphs :=
  match add_all_empty_subgraph_types ctx subs
      { object_types := [], interface_types := [], union_types := [],
        enum_types := [], input_object_types := [] } filtered_types with
  | .error e => .error e
  | .ok (subs, infos) =>
    match extract_object_type_content parseFieldType ctx sg subs
        infos.object_types with
    | .error e => .error e
    | .ok subs =>
      match extract_interface_type_content parseFieldType ctx sg subs
          infos.interface_types with
      | .error e => .error e
      | .ok subs =>
        match extract_union_type_content ctx sg subs infos.union_types with
        | .error e => .error e
        | .ok subs =>
          match extract_enum_type_content ctx sg subs infos.enum_types with
          | .error e => .error e
          | .ok subs =>
            match extract_input_object_type_content parseFieldType ctx sg
                subs infos.input_object_types with
            | .error e => .error e
            | .ok subs =>
              let defs := all_executable_directive_definitions sg
              .ok (subs.map (fun u =>
                { u with schema := finish_subgraph defs u.schema }))

/-- The supported join-spec versions (`JOIN_VERSIONS`).

Modelled from the spec: the version table lives in
`link/join_spec_definition.rs`, outside the provided sources; §4.1 requires
0.1 to be recognized (its extraction path merely deferred) and the current
generation supported. -/
def JOIN_VERSIONS : List Version := [⟨0, 1⟩, ⟨0, 2⟩, ⟨0, 3⟩]

/-- Whether a type belongs to the link or join specification.

Modelled from the spec: `is_spec_type_name` resolves against the spec
definitions outside the provided sources; spec-internal types are the
link/join-prefixed ones. -/
def is_spec_type_name (n : GName) : Bool :=
  n.startsWith "join__" || n.startsWith "link__"

/-- `validate_supergraph`: require a core schema, a join link, and a
supported join version. -/
def validate_supergraph (sg : Supergraph) : Except FedError Unit :=
  if !sg.isCoreSchema then
    .error (.invalidFederationSupergraph
      "Invalid supergraph: must be a core schema")
  else if !sg.hasJoinLink then
    .error (.invalidFederationSupergraph
      "Invalid supergraph: must use the join spec")
  else if !(JOIN_VERSIONS.contains sg.joinVersion) then
    .error (.invalidFederationSupergraph
      "Invalid supergraph: uses unsupported join spec version")
  else .ok ()

/-- `collect_empty_subgraphs`: one subgraph per `join__Graph` enum value,
each seeded with the empty federation preamble; a value without
`@join__graph` and a duplicate subgraph name are malformed-supergraph
errors. The federation-spec resolution of the fixed preamble always
succeeds (the preamble hard-codes federation v2.5), so every collected
graph enum value gets a `federation_spec_definitions` entry. -/
def collect_empty_subgraphs_loop :
    Subgraphs → List (GName × String) → List GName → List GraphEnumValue →
    Except FedError (Subgraphs × ExtractContext)
  | subs, mapping, fed, [] =>
    .ok (subs, { graphToSubgraph := mapping, fedSpecGraphs := fed })
  | subs, mapping, fed, v :: rest =>
    match v.graphApp with
    | none =>
      .error (.invalidFederationSupergraph
        ("Value " ++ v.enumName ++
         " of join__Graph enum has no @join__graph directive"))
    | some (n, url) =>
      match subs.add { name := n, url := url,
                       schema := new_empty_fed_2_subgraph_schema } with
      | .error e => .error e
      | .ok subs =>
        collect_empty_subgraphs_loop subs (mapping ++ [(v.enumName, n)])
          (fed ++ [v.enumName]) rest

/-- `collect_empty_subgraphs`. -/
def collect_empty_subgraphs (sg : Supergraph) :
    Except FedError (Subgraphs × ExtractContext) :=
  collect_empty_subgraphs_loop [] [] [] sg.graphEnumValues

/-- The outcome of the public entry point: success, a returned error, or
the `todo` panic of the deferred Fed 1 path (which returns nothing at
all). -/
inductive Outcome (α : Type)
  | ok (a : α)
  | err (e : FedError)
  | todo (msg : String)
deriving DecidableEq, Repr

/-- The final loop of `extract_subgraphs_from_supergraph`: per graph enum
value, resolve the subgraph, require its federation spec entry, add the
federation operations, and — when validation is on — validate the subgraph
(the external generic validator is the parameter `valid`), turning a
failure into a malformed-supergraph diagnostic naming the subgraph. -/
def finish_and_validate_loop (valid : SubSchema → Bool)
    (validate_extracted_subgraphs : Bool) (ctx : ExtractContext) :
    Subgraphs → List GName → Except FedError Subgraphs
  | subs, [] => .ok subs
  | subs, g :: gs =>
    match get_subgraph_name ctx g with
    | .error e => .error e
    | .ok n =>
      match require_fed_spec ctx g with
      | .error e => .error e
      | .ok _ =>
        match subs.find? (fun u => u.name == n) with
        | none =>
          .error (.internal
            "All subgraphs should have been created by collect_empty_subgraphs")
        | some u =>
          match add_federation_operations u.schema with
          | .error e => .error e
          | .ok sch =>
            if validate_extracted_subgraphs && !(valid sch) then
              .error (.invalidFederationSupergraph
                ("Unexpected error extracting " ++ n ++
                 " from the supergraph: this is either a bug, or the supergraph has been corrupted"))
            else
              finish_and_validate_loop valid validate_extracted_subgraphs
                ctx
                (subs.map (fun w => if w.name == n then
                  { w with schema := sch } else w)) gs

/-- `extract_subgraphs_from_supergraph`, the public entry point. -/
def extract_subgraphs_from_supergraph
    (parseFieldType : String → Option GType) (valid : SubSchema → Bool)
    (sg : Supergraph) (validate_extracted_subgraphs : Option Bool) :
    Outcome Subgraphs :=
  let validate := validate_extracted_subgraphs.getD true
  match validate_supergraph sg with
  | .error e => .err e
  | .ok _ =>
    let is_fed_1 := sg.joinVersion == Version.mk 0 1
    match collect_empty_subgraphs sg with
    | .error e => .err e
    | .ok (subs, ctx) =>
      let filtered_types :=
        sg.types.filter (fun t => !(is_spec_type_name t.name))
      if is_fed_1 then
        .todo "Fed 1 supergraphs are not yet supported"
      else
        match extract_subgraphs_from_fed_2_supergraph parseFieldType ctx sg
            subs filtered_types with
        | .error e => .err e
        | .ok subs =>
          match finish_and_validate_loop valid validate ctx subs
              (ctx.graphToSubgraph.map (fun p => p.1)) with
          | .error e => .err e
          | .ok subs => .ok subs

/-- Whether an outcome is a success. -/
def Outcome.isOk {α : Type} : Outcome α → Bool
  | .ok _ => true
  | _ => false

deriving instance DecidableEq for Except

/-! ## Concrete instances used by witnesses and counterexamples -/

/-- A two-subgraph context: graph enum values `GA`/`GB` for subgraphs
`a`/`b`. -/
def ctxAB : ExtractContext :=
  { graphToSubgraph := [("GA", "a"), ("GB", "b")],
    fedSpecGraphs := ["GA", "GB"] }

/-- Ownership by both `GA` and `GB`, neither as an interface object. -/
def siAB : List (GName × Bool) := [("GA", false), ("GB", false)]

/-- A plain `f: String` field with no `@join__field` application. -/
def fldPlain : FieldDef :=
  { name := "f", arguments := [], ty := .named "String",
    joinFieldApps := [] }

/-- A trivial field-type parser (no claim exercises it on these inputs). -/
def parseNone : String → Option GType := fun _ => none

/-- An empty object type `T`. -/
def emptyObjT : TypeDef :=
  { name := "T", kind := .object, hasKey := false,
    hasInterfaceObject := false, implements := [], members := [] }

/-- An executable directive definition with an argument of type `T`. -/
def dirDefOnT : DirectiveDef :=
  { name := "d",
    arguments := [{ name := "a", ty := .named "T", defaultValue := none,
                    directives := [] }],
    repeatable := false, locations := [.onQuery] }

/-- A subgraph schema holding only the empty object `T`. -/
def schemaOnlyT : SubSchema :=
  { types := [emptyObjT], queryRoot := none, mutationRoot := none,
    subscriptionRoot := none, directiveDefs := [] }

/-- A scalar type with zero `@join__type` applications. -/
def scalarNoApps : SupergraphType :=
  { name := "S", kind := .scalar, joinTypeApps := [],
    joinImplementsApps := [], fields := [], inputFields := [],
    unionMembers := [], joinUnionMemberApps := [], enumValues := [] }

/-- A `@join__type(graph: GA)` application with no key. -/
def joinTypeGA : TypeDirectiveArguments :=
  { graph := "GA", key := none, extension := false, resolvable := true,
    is_interface_object := false }

/-- A supergraph `Query` type owned by `GA` with one plain field. -/
def queryTypeGA : SupergraphType :=
  { name := "Query", kind := .object, joinTypeApps := [joinTypeGA],
    joinImplementsApps := [],
    fields := [{ name := "x", arguments := [], ty := .named "String",
                 joinFieldApps := [] }],
    inputFields := [], unionMembers := [], joinUnionMemberApps := [],
    enumValues := [] }

/-- A one-subgraph fed-2 supergraph with a single plain `Query` type. -/
def sgSmall : Supergraph :=
  { isCoreSchema := true, hasJoinLink := true, joinVersion := ⟨0, 3⟩,
    graphEnumValues := [{ enumName := "GA", graphApp := some ("a", "urlA") }],
    types := [queryTypeGA], directiveDefs := [] }

/-- `sgSmall` with an additional scalar carrying zero `@join__type`
applications. -/
def sgScalarNoApps : Supergraph :=
  { sgSmall with types := [queryTypeGA, scalarNoApps] }

/-- `sgSmall` declaring join-spec version 0.1. -/
def sgFed1 : Supergraph := { sgSmall with joinVersion := ⟨0, 1⟩ }

/-- A subgraph schema exercising the pruning cascade: `E` is an empty
object; `A`'s only field references `E` (so removing `E` empties `A`);
`Z` is an enum; `Q` keeps a plain field. -/
def schemaPrune : SubSchema :=
  { types :=
      [emptyObjT,
       { name := "A", kind := .object, hasKey := false,
         hasInterfaceObject := false, implements := [],
         members := [{ name := "t",
                       payload := .field { name := "t", arguments := [],
                                           ty := .named "T",
                                           directives := [] } }] },
       { name := "Z", kind := .enum, hasKey := false,
         hasInterfaceObject := false, implements := [],
         members := [{ name := "V", payload := .enumValue }] },
       { name := "Q", kind := .object, hasKey := false,
         hasInterfaceObject := false, implements := [],
         members := [{ name := "q",
                       payload := .field { name := "q", arguments := [],
                                           ty := .named "String",
                                           directives := [] } }] }],
    queryRoot := some "Q", mutationRoot := none, subscriptionRoot := none,
    directiveDefs := [] }

/-- A `@join__field(graph: GA, external: true)` application. -/
def appExtGA : FieldDirectiveArguments :=
  { FieldDirectiveArguments.none_ with
      graph := some "GA", external := some true }

/-- A `@join__field(graph: GB)` application. -/
def appPlainGB : FieldDirectiveArguments :=
  { FieldDirectiveArguments.none_ with graph := some "GB" }

/-- A field external in `GA` and plainly owned by `GB`. -/
def fldExtPlain : FieldDef :=
  { name := "f", arguments := [], ty := .named "String",
    joinFieldApps := [appExtGA, appPlainGB] }

/-- The field `add_subgraph_field` synthesizes for `appExtGA` on
`fldExtPlain`. -/
def fldExtPlainGA : SubgraphField :=
  { name := "f", arguments := [], ty := .named "String",
    directives := [FieldDirective.external none] }

/-- The per-field extraction output for `fldExtPlain`. -/
def outExtPlain : List (String × SubgraphField) :=
  [("a", fldExtPlainGA),
   ("b", { name := "f", arguments := [], ty := .named "String",
           directives := [] })]

/-- A subgraph schema holding one keyed object type `P`. -/
def schemaKeyedP : SubSchema :=
  { types := [{ name := "P", kind := .object, hasKey := true,
                hasInterfaceObject := false, implements := [],
                members := [{ name := "id",
                              payload := .field
                                { name := "id", arguments := [],
                                  ty := .named "ID",
                                  directives := [] } }] }],
    queryRoot := none, mutationRoot := none, subscriptionRoot := none,
    directiveDefs := [] }

/-- The output of `add_federation_operations` on `schemaKeyedP`. -/
def schemaKeyedPOut : SubSchema :=
  { types :=
      [{ name := "P", kind := .object, hasKey := true,
         hasInterfaceObject := false, implements := [],
         members := [{ name := "id",
                       payload := .field { name := "id", arguments := [],
                                           ty := .named "ID",
                                           directives := [] } }] },
       anyScalarDef,
       serviceTypeDef,
       entityUnionDef ["P"],
       { name := "Query", kind := .object, hasKey := false,
         hasInterfaceObject := false, implements := [],
         members := [entitiesFieldMember, serviceFieldMember] }],
    queryRoot := some "Query", mutationRoot := none,
    subscriptionRoot := none, directiveDefs := [] }

/-- A one-graph context for subgraph `a`. -/
def ctxGA : ExtractContext :=
  { graphToSubgraph := [("GA", "a")], fedSpecGraphs := ["GA"] }

/-- The subgraph `a` with the empty preamble schema. -/
def subA : FederationSubgraph :=
  { name := "a", url := "urlA", schema := new_empty_fed_2_subgraph_schema }

/-- The output of `add_federation_operations` on the empty schema. -/
def schEmptyFedOut : SubSchema :=
  { types := [anyScalarDef, serviceTypeDef,
      { name := "Query", kind := .object, hasKey := false,
        hasInterfaceObject := false, implements := [],
        members := [serviceFieldMember] }],
    queryRoot := some "Query", mutationRoot := none,
    subscriptionRoot := none, directiveDefs := [] }

/-- Mixed ownership: `GA` owns the type as a plain interface, `GB` as an
interface-object projection. -/
def siMixed : List (GName × Bool) := [("GA", false), ("GB", true)]

/-- Stored kinds matching `siMixed`: `GB`'s subgraph stores the type as an
object (interface-object projection), `GA`'s as an interface. -/
def storedMixed : GName → Option TypeKind :=
  fun g => if g == "GB" then some TypeKind.object
           else some TypeKind.interface

/-- The field synthesized from `fldPlain` with shareability off. -/
def fldPlainOut : SubgraphField :=
  { name := "f", arguments := [], ty := .named "String", directives := [] }

/-! ## Theorems -/

theorem foldl_insert_directive_definition (defs : List DirectiveDef) :
    ∀ u : SubSchema, defs.foldl insert_directive_definition u =
      { u with directiveDefs := u.directiveDefs ++ defs } := by
  induction defs with
  | nil => intro u; simp
  | cons d ds ih =>
    intro u
    rw [List.foldl_cons, ih]
    simp [insert_directive_definition]

theorem add_subgraph_field_none (parseFieldType : String → Option GType)
    (field : FieldDef) (b : Bool) :
    add_subgraph_field parseFieldType field b none =
      .ok { name := field.name,
            arguments := field.arguments.map
              (fun a => { a with directives := [] }),
            ty := field.ty,
            directives := if b then [FieldDirective.shareable] else [] } := by
  simp [add_subgraph_field, FieldDirectiveArguments.none_,
    subgraphFieldDirectives]

theorem fan_out_field_ok (parseFieldType : String → Option GType)
    (ctx : ExtractContext) (field : FieldDef) (b : Bool) :
    ∀ gs : List GName,
    (∀ g ∈ gs, (ctx.graphToSubgraph.lookup g).isSome = true ∧
      ctx.fedSpecGraphs.contains g = true) →
    fan_out_field parseFieldType ctx field b gs =
      .ok (gs.map (fun g =>
        ((ctx.graphToSubgraph.lookup g).getD "",
         { name := field.name,
           arguments := field.arguments.map
             (fun a => { a with directives := [] }),
           ty := field.ty,
           directives := if b then [FieldDirective.shareable] else [] }))) := by
  intro gs
  induction gs with
  | nil => intro _; rfl
  | cons g gs ih =>
    intro hres
    obtain ⟨h1, h2⟩ := hres g (List.mem_cons_self _ _)
    obtain ⟨n, hn⟩ := Option.isSome_iff_exists.mp h1
    rw [fan_out_field]
    simp only [get_subgraph_name, hn]
    rw [show require_fed_spec ctx g = .ok () from by
      unfold require_fed_spec
      rw [h2]
      rfl]
    rw [add_subgraph_field_none]
    rw [ih (fun x hx => hres x (List.mem_cons_of_mem _ hx))]
    simp [hn]

/-- C1: a field with no field-level provenance application is added to
every subgraph owning the type, verbatim — same type and same arguments
(arguments copied with their directives stripped, as the source does) —
and carries `@shareable` exactly when the type is owned by more than one
subgraph. -/
theorem join_field_absent_fans_out_verbatim
    (parseFieldType : String → Option GType) (ctx : ExtractContext)
    (type_name : GName) (subgraph_info : List (GName × Bool))
    (field : FieldDef)
    (happs : field.joinFieldApps = [])
    (hres : ∀ p ∈ subgraph_info,
      (ctx.graphToSubgraph.lookup p.1).isSome = true ∧
      ctx.fedSpecGraphs.contains p.1 = true) :
    extract_object_field parseFieldType ctx type_name subgraph_info field =
      .ok (subgraph_info.map (fun p =>
        ((ctx.graphToSubgraph.lookup p.1).getD "",
         { name := field.name,
           arguments := field.arguments.map
             (fun a => { a with directives := [] }),
           ty := field.ty,
           directives := if subgraph_info.length > 1 then
             [FieldDirective.shareable] else [] }))) := by
  rw [extract_object_field, extract_object_field_core]
  rw [happs]
  simp only [List.isEmpty_nil, if_pos]
  rw [fan_out_field_ok parseFieldType ctx field _
    (subgraph_info.map (fun p => p.1))
    (by intro g hg
        obtain ⟨p, hp, rfl⟩ := List.mem_map.mp hg
        exact hres p hp)]
  rw [List.map_map]
  simp [decide_eq_true_eq]

theorem add_subgraph_field_ok_directives
    (parseFieldType : String → Option GType) (field : FieldDef) (b : Bool)
    (app : FieldDirectiveArguments) (f : SubgraphField)
    (h : add_subgraph_field parseFieldType field b (some app) = .ok f) :
    f.directives = subgraphFieldDirectives app b := by
  unfold add_subgraph_field at h
  simp only [Option.getD] at h
  split at h
  · simp at h
  · injection h with h
    rw [← h]

theorem shareable_mem_subgraphFieldDirectives
    (app : FieldDirectiveArguments) (b : Bool) :
    FieldDirective.shareable ∈ subgraphFieldDirectives app b ↔
      (b = true ∧ app.external.getD false = false ∧
        app.user_overridden.getD false = false) := by
  unfold subgraphFieldDirectives
  cases hext : app.external.getD false <;>
    cases huo : app.user_overridden.getD false <;>
      cases b <;> simp

theorem external_none_mem_subgraphFieldDirectives
    (app : FieldDirectiveArguments) (b : Bool) :
    FieldDirective.external none ∈ subgraphFieldDirectives app b ↔
      app.external.getD false = true := by
  unfold subgraphFieldDirectives
  cases hext : app.external.getD false <;>
    cases huo : app.user_overridden.getD false <;>
      cases b <;> simp

theorem external_overridden_mem_subgraphFieldDirectives
    (app : FieldDirectiveArguments) (b : Bool) :
    FieldDirective.external (some "[overridden]") ∈
        subgraphFieldDirectives app b ↔
      app.user_overridden.getD false = true := by
  unfold subgraphFieldDirectives
  cases hext : app.external.getD false <;>
    cases huo : app.user_overridden.getD false <;>
      cases b <;> simp

theorem apply_field_apps_cons_none (parseFieldType : String → Option GType)
    (ctx : ExtractContext) (type_name : GName) (field : FieldDef)
    (si : List (GName × Bool)) (b : Bool) (hd : FieldDirectiveArguments)
    (tl : List FieldDirectiveArguments) (hhd : hd.graph = none) :
    apply_field_apps parseFieldType ctx type_name field si b (hd :: tl) =
      apply_field_apps parseFieldType ctx type_name field si b tl := by
  rw [apply_field_apps, hhd]

theorem apply_field_apps_cons_some (parseFieldType : String → Option GType)
    (ctx : ExtractContext) (type_name : GName) (field : FieldDef)
    (si : List (GName × Bool)) (b : Bool) (hd : FieldDirectiveArguments)
    (tl : List FieldDirectiveArguments) (g : GName)
    (hhd : hd.graph = some g) :
    apply_field_apps parseFieldType ctx type_name field si b (hd :: tl) =
      (match get_subgraph_name ctx g with
       | .error e => .error e
       | .ok n =>
         match require_fed_spec ctx g with
         | .error e => .error e
         | .ok _ =>
           if (si.lookup g).isSome then
             match add_subgraph_field parseFieldType field b (some hd) with
             | .error e => .error e
             | .ok f =>
               match apply_field_apps parseFieldType ctx type_name field si
                   b tl with
               | .error e => .error e
               | .ok out => .ok ((n, f) :: out)
           else
             .error (.invalidFederationSupergraph
               ("@join__field cannot exist on " ++ type_name ++ "." ++
                field.name ++ " for subgraph " ++ g ++
                " without type-level @join__type"))) := by
  rw [apply_field_apps, hhd]

theorem apply_field_apps_mem (parseFieldType : String → Option GType)
    (ctx : ExtractContext) (type_name : GName) (field : FieldDef)
    (si : List (GName × Bool)) (b : Bool) :
    ∀ (apps : List FieldDirectiveArguments)
      (out : List (String × SubgraphField)) (a : FieldDirectiveArguments)
      (g : GName) (f : SubgraphField),
    apply_field_apps parseFieldType ctx type_name field si b apps = .ok out →
    a ∈ apps → a.graph = some g →
    add_subgraph_field parseFieldType field b (some a) = .ok f →
    ∃ n, ctx.graphToSubgraph.lookup g = some n ∧ (n, f) ∈ out := by
  intro apps
  induction apps with
  | nil =>
    intro out a g f hout ha hg hf
    simp at ha
  | cons hd tl ih =>
    intro out a g f hout ha hg hf
    rcases List.mem_cons.mp ha with heq | hmem
    · subst heq
      rw [apply_field_apps_cons_some parseFieldType ctx type_name field si
        b a tl g hg] at hout
      split at hout
      · simp at hout
      · rename_i n hgs
        split at hout
        · simp at hout
        · split at hout
          · split at hout
            · simp at hout
            · rename_i fh hadd
              split at hout
              · simp at hout
              · rename_i outh hrec
                injection hout with hout
                rw [hf] at hadd
                injection hadd with hadd
                refine ⟨n, ?_, ?_⟩
                · unfold get_subgraph_name at hgs
                  cases hlu : ctx.graphToSubgraph.lookup g with
                  | none => rw [hlu] at hgs; cases hgs
                  | some m =>
                    rw [hlu] at hgs
                    injection hgs with hgs
                    rw [hgs]
                · rw [← hout, hadd]
                  exact List.mem_cons_self _ _
          · simp at hout
    · cases hhd : hd.graph with
      | none =>
        rw [apply_field_apps_cons_none parseFieldType ctx type_name field si
          b hd tl hhd] at hout
        exact ih out a g f hout hmem hg hf
      | some gh =>
        rw [apply_field_apps_cons_some parseFieldType ctx type_name field si
          b hd tl gh hhd] at hout
        split at hout
        · simp at hout
        · split at hout
          · simp at hout
          · split at hout
            · split at hout
              · simp at hout
              · split at hout
                · simp at hout
                · rename_i outh hrec
                  injection hout with hout
                  obtain ⟨n, hn, hmem2⟩ := ih outh a g f hrec hmem hg hf
                  exact ⟨n, hn, by
                    rw [← hout]
                    exact List.mem_cons_of_mem _ hmem2⟩
            · simp at hout

/-- C2: for a field with at least one field-level provenance application,
shareability is computed as "more than one application excludes both
external and user_overridden"; each application naming an owning subgraph
yields a synthesized field there which carries `@external` iff the
application marks it external, `@external(reason: "[overridden]")` iff it
marks it user-overridden, and `@shareable` exactly when the field is
shareable and the application is neither external nor user-overridden. -/
theorem join_field_apps_shape_subgraph_field
    (parseFieldType : String → Option GType) (ctx : ExtractContext)
    (type_name : GName) (si : List (GName × Bool)) (field : FieldDef)
    (out : List (String × SubgraphField)) (a : FieldDirectiveArguments)
    (g : GName) (f : SubgraphField)
    (hne : field.joinFieldApps ≠ [])
    (hout : extract_object_field parseFieldType ctx type_name si field =
      .ok out)
    (ha : a ∈ field.joinFieldApps) (hg : a.graph = some g)
    (hf : add_subgraph_field parseFieldType field
      (fieldShareability field.joinFieldApps) (some a) = .ok f) :
    (∃ n, ctx.graphToSubgraph.lookup g = some n ∧ (n, f) ∈ out)
    ∧ (fieldShareability field.joinFieldApps = true ↔
        (field.joinFieldApps.filter (fun x =>
          !(x.external.getD false) && !(x.user_overridden.getD false))).length
          > 1)
    ∧ (FieldDirective.external none ∈ f.directives ↔
        a.external.getD false = true)
    ∧ (FieldDirective.external (some "[overridden]") ∈ f.directives ↔
        a.user_overridden.getD false = true)
    ∧ (FieldDirective.shareable ∈ f.directives ↔
        (fieldShareability field.joinFieldApps = true ∧
         a.external.getD false = false ∧
         a.user_overridden.getD false = false)) := by
  have hdirs := add_subgraph_field_ok_directives parseFieldType field _ a f hf
  rw [extract_object_field, extract_object_field_core] at hout
  rw [if_neg (by simpa [List.isEmpty_iff] using hne)] at hout
  refine ⟨?_, ?_, ?_, ?_, ?_⟩
  · exact apply_field_apps_mem parseFieldType ctx type_name field si _
      field.joinFieldApps out a g f hout ha hg hf
  · simp [fieldShareability]
  · rw [hdirs]
    exact external_none_mem_subgraphFieldDirectives a _
  · rw [hdirs]
    exact external_overridden_mem_subgraphFieldDirectives a _
  · rw [hdirs]
    exact shareable_mem_subgraphFieldDirectives a _

/-- C1 (witness): the plain field fans out to both owners of a
two-subgraph type, marked `@shareable`. -/
theorem join_field_absent_fans_out_verbatim_witness :
    extract_object_field parseNone ctxAB "T" siAB fldPlain =
      .ok (siAB.map (fun p =>
        ((ctxAB.graphToSubgraph.lookup p.1).getD "",
         { name := fldPlain.name,
           arguments := fldPlain.arguments.map
             (fun a => { a with directives := [] }),
           ty := fldPlain.ty,
           directives := if siAB.length > 1 then
             [FieldDirective.shareable] else [] }))) :=
  join_field_absent_fans_out_verbatim parseNone ctxAB "T" siAB fldPlain rfl
    (by decide)

/-- C2 (witness): on a field external in `GA` and plain in `GB`, the `GA`
application yields an `@external` field in subgraph `a` with no
`@shareable` (only one non-external, non-overridden application). -/
theorem join_field_apps_shape_subgraph_field_witness :
    (∃ n, ctxAB.graphToSubgraph.lookup "GA" = some n ∧
      (n, fldExtPlainGA) ∈ outExtPlain)
    ∧ (fieldShareability fldExtPlain.joinFieldApps = true ↔
        (fldExtPlain.joinFieldApps.filter (fun x =>
          !(x.external.getD false) &&
          !(x.user_overridden.getD false))).length > 1)
    ∧ (FieldDirective.external none ∈ fldExtPlainGA.directives ↔
        appExtGA.external.getD false = true)
    ∧ (FieldDirective.external (some "[overridden]") ∈
        fldExtPlainGA.directives ↔
        appExtGA.user_overridden.getD false = true)
    ∧ (FieldDirective.shareable ∈ fldExtPlainGA.directives ↔
        (fieldShareability fldExtPlain.joinFieldApps = true ∧
         appExtGA.external.getD false = false ∧
         appExtGA.user_overridden.getD false = false)) :=
  join_field_apps_shape_subgraph_field parseNone ctxAB "T" siAB fldExtPlain
    outExtPlain appExtGA "GA" fldExtPlainGA (by decide) (by decide)
    (by decide) rfl (by decide)

theorem pruneTypesFuel_no_empty : ∀ (fuel : Nat) (ts : List TypeDef),
    ts.length ≤ fuel →
    ∀ t ∈ pruneTypesFuel fuel ts, prunableKind t.kind = true →
      t.members ≠ [] := by
  intro fuel
  induction fuel with
  | zero =>
    intro ts hl t ht hp
    have hnil : ts = [] := List.eq_nil_of_length_eq_zero (Nat.le_zero.mp hl)
    subst hnil
    simp [pruneTypesFuel] at ht
  | succ n ih =>
    intro ts hl t ht hp
    rw [pruneTypesFuel] at ht
    cases hfind : ts.find?
        (fun t => prunableKind t.kind && t.members.isEmpty) with
    | none =>
      rw [hfind] at ht
      have := List.find?_eq_none.mp hfind t ht
      simp [hp] at this
      exact this
    | some r =>
      rw [hfind] at ht
      have hrmem := List.mem_of_find?_eq_some hfind
      have hlt : ((ts.filter (fun u => !(u.name == r.name))).map
          (dropRefsTo r.name)).length ≤ n := by
        rw [List.length_map]
        have : (ts.filter (fun u => !(u.name == r.name))).length <
            ts.length := by
          apply List.length_filter_lt_length_iff_exists.mpr
          exact ⟨r, hrmem, by simp⟩
        omega
      exact ih _ hlt t ht hp

theorem lookup_pair_mem (l : List (GName × Bool)) (k : GName) (b : Bool)
    (h : l.lookup k = some b) : (k, b) ∈ l := by
  induction l with
  | nil => simp [List.lookup] at h
  | cons p l ih =>
    rw [List.lookup] at h
    cases hk : (k == p.1) with
    | true =>
      rw [hk] at h
      injection h with h
      have hkp : k = p.1 := by simpa using hk
      subst hkp
      rw [← h]
      exact List.mem_cons_self _ _
    | false =>
      rw [hk] at h
      exact List.mem_cons_of_mem _ (ih h)

theorem pruneTypesFuel_keeps_enums : ∀ (fuel : Nat) (ts : List TypeDef),
    (ts.map (fun t => t.name)).Nodup →
    ∀ t ∈ ts, t.kind = TypeKind.enum →
      ∃ u ∈ pruneTypesFuel fuel ts, u.name = t.name ∧
        u.kind = TypeKind.enum := by
  intro fuel
  induction fuel with
  | zero =>
    intro ts hnd t ht hk
    exact ⟨t, by simpa [pruneTypesFuel] using ht, rfl, hk⟩
  | succ n ih =>
    intro ts hnd t ht hk
    rw [pruneTypesFuel]
    cases hfind : ts.find?
        (fun t => prunableKind t.kind && t.members.isEmpty) with
    | none => exact ⟨t, ht, rfl, hk⟩
    | some r =>
      have hr := List.find?_some hfind
      have hrmem := List.mem_of_find?_eq_some hfind
      have hname : ¬(t.name = r.name) := by
        intro heq
        have htr : t = r := List.inj_on_of_nodup_map hnd ht hrmem heq
        rw [← htr] at hr
        rw [hk] at hr
        simp [prunableKind] at hr
      have ht' : dropRefsTo r.name t ∈
          (ts.filter (fun u => !(u.name == r.name))).map
            (dropRefsTo r.name) := by
        apply List.mem_map_of_mem
        apply List.mem_filter.mpr
        exact ⟨ht, by simp [hname]⟩
      have hnd' : (((ts.filter (fun u => !(u.name == r.name))).map
          (dropRefsTo r.name)).map (fun t => t.name)).Nodup := by
        rw [List.map_map]
        have heq : ((ts.filter (fun u => !(u.name == r.name))).map
            ((fun t => t.name) ∘ dropRefsTo r.name)) =
            ((ts.filter (fun u => !(u.name == r.name))).map
              (fun t => t.name)) := by
          apply List.map_congr_left
          intro x _
          rfl
        rw [heq]
        exact hnd.sublist ((List.filter_sublist ts).map _)
      obtain ⟨u, hu, hun, huk⟩ := ih _ hnd' (dropRefsTo r.name t) ht'
        (by simpa [dropRefsTo] using hk)
      exact ⟨u, hu, by rw [hun]; rfl, huk⟩

/-- C5: after the orphan pruner runs on a subgraph, no object, interface,
union or input-object type with zero members remains (every empty shell,
and everything emptied by its cascading removal, is gone), while enum
types are never candidates for this removal: every enum of the input
schema is still present. -/
theorem no_empty_shells_after_pruning (s : SubSchema)
    (hnd : (s.types.map (fun t => t.name)).Nodup) :
    (∀ t ∈ (remove_unused_types_from_subgraph s).types,
        prunableKind t.kind = true → t.members ≠ [])
    ∧ (∀ t ∈ s.types, t.kind = TypeKind.enum →
        ∃ u ∈ (remove_unused_types_from_subgraph s).types,
          u.name = t.name ∧ u.kind = TypeKind.enum) := by
  have heq : (remove_unused_types_from_subgraph s).types =
      pruneTypesFuel s.types.length s.types := rfl
  constructor
  · intro t ht hp
    rw [heq] at ht
    exact pruneTypesFuel_no_empty s.types.length s.types (le_refl _) t ht hp
  · intro t ht hk
    rw [heq]
    exact pruneTypesFuel_keeps_enums s.types.length s.types hnd t ht hk

/-- C5 (witness): on a schema with an empty object, a type emptied by the
cascade, an enum, and a populated root. -/
theorem no_empty_shells_after_pruning_witness :
    (∀ t ∈ (remove_unused_types_from_subgraph schemaPrune).types,
        prunableKind t.kind = true → t.members ≠ [])
    ∧ (∀ t ∈ schemaPrune.types, t.kind = TypeKind.enum →
        ∃ u ∈ (remove_unused_types_from_subgraph schemaPrune).types,
          u.name = t.name ∧ u.kind = TypeKind.enum) :=
  no_empty_shells_after_pruning schemaPrune (by decide)

/-- C7 (counterexample): the pipeline's per-subgraph tail is *not* the
composition that copies the executable directive definitions first and
prunes afterward: on a subgraph holding only the empty object `T`, with a
copied executable directive definition whose argument has type `T`, the
pipeline keeps the definition (pruning ran before the copy), while the
copy-first composition prunes it away with `T`. -/
theorem copy_then_prune_differs :
    finish_subgraph [dirDefOnT] schemaOnlyT ≠
      remove_unused_types_from_subgraph
        (copy_directive_definitions [dirDefOnT] schemaOnlyT) := by
  decide

/-- C7 (amended): in `extract_subgraphs_from_fed_2_supergraph`'s
per-subgraph tail, orphan pruning runs first and the copy of the
executable directive definitions second; the output equals the
prune-then-copy composition of the two stage functions. -/
theorem finish_subgraph_is_prune_then_copy (defs : List DirectiveDef)
    (s : SubSchema) :
    finish_subgraph defs s =
      copy_directive_definitions defs
        (remove_unused_types_from_subgraph s) := by
  rw [finish_subgraph, foldl_insert_directive_definition]
  rfl

/-- C6 (amended): a non-scalar supergraph type with zero type-level
provenance applications is a fatal malformed-input error
("Missing @join__type"), while a scalar with zero applications is
silently skipped: it is declared in no subgraph, produces no `TypeInfo`,
and raises no error. -/
theorem missing_join_type_fatal_unless_scalar (ctx : ExtractContext)
    (subs : Subgraphs) (t : SupergraphType)
    (happs : t.joinTypeApps = []) :
    (t.kind ≠ .scalar →
      scaffold_type ctx subs t = .error (.invalidFederationSupergraph
        ("Missing @join__type on " ++ t.name)))
    ∧ (t.kind = .scalar → scaffold_type ctx subs t = .ok (subs, none)) := by
  constructor
  · intro hk
    cases h : t.kind <;>
      simp_all [scaffold_type, add_empty_type, happs]
  · intro hk
    simp [scaffold_type, hk, happs, insert_scalar_apps]

/-- C6 (witness for the amended theorem): an object with zero applications
errors, a scalar with zero applications is skipped. -/
theorem missing_join_type_fatal_unless_scalar_witness :
    (scaffold_type ctxAB []
        { scalarNoApps with name := "O", kind := TypeKind.object } =
      .error (.invalidFederationSupergraph "Missing @join__type on O"))
    ∧ (scaffold_type ctxAB [] scalarNoApps = .ok ([], none)) :=
  ⟨(missing_join_type_fatal_unless_scalar ctxAB []
      { scalarNoApps with name := "O", kind := TypeKind.object } rfl).1
    (by decide),
   (missing_join_type_fatal_unless_scalar ctxAB [] scalarNoApps rfl).2 rfl⟩

/-- C6 (counterexample): a supergraph containing a scalar type with zero
type-level provenance applications extracts successfully — the
"Missing @join__type" error is not raised for scalars, which are silently
skipped. -/
theorem scalar_missing_join_type_extracts_ok :
    (extract_subgraphs_from_supergraph parseNone (fun _ => true)
        sgScalarNoApps none).isOk = true
    ∧ sgScalarNoApps.types.any (fun t =>
        t.kind == TypeKind.scalar && t.joinTypeApps.isEmpty &&
        !(is_spec_type_name t.name)) = true := by
  decide

/-- C9: the type-override decoder rejects (with an invalid-GraphQL error)
every string containing `}` or `:`; on every other string it returns the
result of parsing the string in a field-type position; and a
`@join__field` application carrying such a malformed type string makes
`add_subgraph_field` — and with it the extraction — fail with that
error. -/
theorem decode_type_rejects_brace_colon
    (parseFieldType : String → Option GType) (t : String) (field : FieldDef)
    (is_shareable : Bool) (app : FieldDirectiveArguments)
    (happ : app.type_ = some t)
    (hbad : t.data.any (fun c => c == '}' || c == ':') = true) :
    decode_type parseFieldType t =
      .error (.invalidGraphQL ("Cannot parse type " ++ t))
    ∧ (∀ s : String, s.data.any (fun c => c == '}' || c == ':') = false →
        decode_type parseFieldType s =
          match parseFieldType s with
          | some ty => .ok ty
          | none => .error (.invalidGraphQL ("Cannot parse type " ++ s)))
    ∧ add_subgraph_field parseFieldType field is_shareable (some app) =
        .error (.invalidGraphQL ("Cannot parse type " ++ t)) := by
  refine ⟨?_, ?_, ?_⟩
  · simp [decode_type, hbad]
  · intro s hs
    simp [decode_type, hs]
  · simp [add_subgraph_field, happ, decode_type, hbad]

/-- C9 (witness): the override string `[T}` is rejected wherever it
appears. -/
theorem decode_type_rejects_brace_colon_witness :
    decode_type parseNone "[T\x7d" =
      .error (.invalidGraphQL "Cannot parse type [T\x7d")
    ∧ add_subgraph_field parseNone fldPlain false
        (some { FieldDirectiveArguments.none_ with type_ := some "[T\x7d" }) =
      .error (.invalidGraphQL "Cannot parse type [T\x7d") := by
  have h := decode_type_rejects_brace_colon parseNone "[T\x7d" fldPlain false
    { FieldDirectiveArguments.none_ with type_ := some "[T\x7d" } rfl
    (by decide)
  exact ⟨h.1, h.2.2⟩

/-- C8: extraction of a supergraph declaring join-spec version 0.1 never
returns a subgraph set; once the supergraph validates and the subgraphs
collect, it hits the deferred not-yet-supported path (`todo!()`), which
produces no output at all. -/
theorem fed1_supergraph_extraction_todo
    (parseFieldType : String → Option GType) (valid : SubSchema → Bool)
    (sg : Supergraph) (flag : Option Bool)
    (h : sg.joinVersion = Version.mk 0 1) :
    (∀ S, extract_subgraphs_from_supergraph parseFieldType valid sg flag ≠
      .ok S)
    ∧ (∀ r, validate_supergraph sg = .ok () →
        collect_empty_subgraphs sg = .ok r →
        extract_subgraphs_from_supergraph parseFieldType valid sg flag =
          .todo "Fed 1 supergraphs are not yet supported") := by
  have hfed : (sg.joinVersion == Version.mk 0 1) = true := by
    rw [h]; rfl
  constructor
  · intro S
    unfold extract_subgraphs_from_supergraph
    cases hv : validate_supergraph sg with
    | error e => simp
    | ok u =>
      cases hc : collect_empty_subgraphs sg with
      | error e => simp
      | ok r => simp [hfed]
  · intro r hv hc
    unfold extract_subgraphs_from_supergraph
    rw [hv, hc]
    simp [hfed]

/-- C8 (witness): a concrete 0.1 supergraph that passes validation and
subgraph collection hits the deferred path. -/
theorem fed1_supergraph_extraction_todo_witness :
    extract_subgraphs_from_supergraph parseNone (fun _ => true) sgFed1
        none = .todo "Fed 1 supergraphs are not yet supported" :=
  (fed1_supergraph_extraction_todo parseNone (fun _ => true) sgFed1 none
      rfl).2
    ([{ name := "a", url := "urlA",
        schema := new_empty_fed_2_subgraph_schema }],
     { graphToSubgraph := [("GA", "a")], fedSpecGraphs := ["GA"] })
    (by decide) (by decide)


theorem fan_out_interface_eq_fan_out (parseFieldType : String → Option GType)
    (ctx : ExtractContext) (stored : GName → Option TypeKind)
    (si : List (GName × Bool)) (type_name : GName) (field : FieldDef) :
    ∀ gs : List GName,
    (∀ g ∈ gs, ∃ pos, get_pos stored si g type_name = .ok pos) →
    (fan_out_interface_field parseFieldType ctx stored si type_name field
        gs).map (fun l => l.map (fun x => (x.1, x.2.2)))
      = fan_out_field parseFieldType ctx field false gs := by
  intro gs
  induction gs with
  | nil => intro _; rfl
  | cons g gs ih =>
    intro hsub
    obtain ⟨pos, hpos⟩ := hsub g (List.mem_cons_self _ _)
    have ih' := ih (fun x hx => hsub x (List.mem_cons_of_mem _ hx))
    rw [fan_out_interface_field, fan_out_field]
    cases hgs : get_subgraph_name ctx g with
    | error e => simp [Except.map]
    | ok n =>
      cases hfs : require_fed_spec ctx g with
      | error e => simp [hpos, Except.map]
      | ok u =>
        cases hadd : add_subgraph_field parseFieldType field false none with
        | error e => simp [hpos, Except.map]
        | ok f =>
          cases hrec : fan_out_interface_field parseFieldType ctx stored si
              type_name field gs with
          | error e =>
            rw [hrec] at ih'
            simp [Except.map] at ih'
            simp [hpos, ← ih', Except.map]
          | ok rest =>
            rw [hrec] at ih'
            simp [Except.map] at ih'
            simp [hpos, ← ih', Except.map]



theorem apply_interface_apps_eq_apply (parseFieldType : String → Option GType)
    (ctx : ExtractContext) (stored : GName → Option TypeKind)
    (si : List (GName × Bool)) (type_name : GName) (field : FieldDef) :
    ∀ apps : List FieldDirectiveArguments,
    (∀ a ∈ apps, ∀ g : GName, a.graph = some g →
      (∃ pos, get_pos stored si g type_name = .ok pos) ∧
        (si.lookup g).isSome = true) →
    (apply_interface_field_apps parseFieldType ctx stored si type_name field
        apps).map (fun l => l.map (fun x => (x.1, x.2.2)))
      = apply_field_apps parseFieldType ctx type_name field si false apps := by
  intro apps
  induction apps with
  | nil => intro _; rfl
  | cons hd tl ih =>
    intro hsub
    have ih' := ih (fun a ha g hg => hsub a (List.mem_cons_of_mem _ ha) g hg)
    rw [apply_interface_field_apps, apply_field_apps]
    cases hhd : hd.graph with
    | none => exact ih'
    | some g =>
      obtain ⟨⟨pos, hpos⟩, hb⟩ := hsub hd (List.mem_cons_self _ _) g hhd
      cases hgs : get_subgraph_name ctx g with
      | error e => simp [hgs, Except.map]
      | ok n =>
        cases hfs : require_fed_spec ctx g with
        | error e => simp [hgs, hpos, hfs, Except.map]
        | ok u =>
          cases hadd : add_subgraph_field parseFieldType field false
              (some hd) with
          | error e => simp [hgs, hpos, hfs, hb, hadd, Except.map]
          | ok f =>
            cases hrec : apply_interface_field_apps parseFieldType ctx
                stored si type_name field tl with
            | error e =>
              rw [hrec] at ih'
              simp [Except.map] at ih'
              simp [hgs, hpos, hfs, hb, hadd, hrec, ← ih', Except.map]
            | ok rest =>
              rw [hrec] at ih'
              simp [Except.map] at ih'
              simp [hgs, hpos, hfs, hb, hadd, hrec, ← ih', Except.map]



/-- C3 (counterexample): interface-field extraction is not the identical
algorithm to object-field extraction: on a two-owner type with a plain
field, object extraction marks the field `@shareable` in both subgraphs
while interface extraction (destinations resolving to interfaces) never
does. -/
theorem interface_fields_not_identical_to_object :
    ((extract_interface_field parseNone ctxAB
        (fun _ => some TypeKind.interface) siAB "I" fldPlain).map
      (fun l => l.map (fun x => (x.1, x.2.2))))
      ≠ extract_object_field parseNone ctxAB "I" siAB fldPlain := by
  decide

theorem get_pos_ok_of_flag (stored : GName → Option TypeKind)
    (si : List (GName × Bool)) (g ty : GName) (b : Bool)
    (h1 : si.lookup g = some b)
    (h2 : stored g = some (if b then TypeKind.object
      else TypeKind.interface)) :
    get_pos stored si g ty =
      .ok (if b then ObjOrIntf.object else ObjOrIntf.interface) := by
  cases b with
  | false =>
    unfold get_pos
    rw [h1, h2]
    rfl
  | true =>
    unfold get_pos
    rw [h1, h2]
    rfl

theorem add_subgraph_field_ok_directives_any
    (parseFieldType : String → Option GType) (field : FieldDef) (b : Bool)
    (app : Option FieldDirectiveArguments) (f : SubgraphField)
    (h : add_subgraph_field parseFieldType field b app = .ok f) :
    f.directives = subgraphFieldDirectives
      (app.getD FieldDirectiveArguments.none_) b := by
  cases app with
  | none =>
    rw [add_subgraph_field_none] at h
    injection h with h
    rw [← h]
    cases b <;>
      simp [subgraphFieldDirectives, FieldDirectiveArguments.none_]
  | some a =>
    exact add_subgraph_field_ok_directives parseFieldType field b a f h

theorem shareable_not_mem_false (app : FieldDirectiveArguments) :
    FieldDirective.shareable ∉ subgraphFieldDirectives app false := by
  rw [shareable_mem_subgraphFieldDirectives]
  simp

theorem apply_interface_field_apps_cons_none
    (parseFieldType : String → Option GType) (ctx : ExtractContext)
    (stored : GName → Option TypeKind) (si : List (GName × Bool))
    (type_name : GName) (field : FieldDef) (hd : FieldDirectiveArguments)
    (tl : List FieldDirectiveArguments) (hhd : hd.graph = none) :
    apply_interface_field_apps parseFieldType ctx stored si type_name field
        (hd :: tl) =
      apply_interface_field_apps parseFieldType ctx stored si type_name
        field tl := by
  rw [apply_interface_field_apps, hhd]

theorem apply_interface_field_apps_cons_some
    (parseFieldType : String → Option GType) (ctx : ExtractContext)
    (stored : GName → Option TypeKind) (si : List (GName × Bool))
    (type_name : GName) (field : FieldDef) (hd : FieldDirectiveArguments)
    (tl : List FieldDirectiveArguments) (g : GName)
    (hhd : hd.graph = some g) :
    apply_interface_field_apps parseFieldType ctx stored si type_name field
        (hd :: tl) =
      (match get_subgraph_name ctx g with
       | .error e => .error e
       | .ok n =>
         match get_pos stored si g type_name with
         | .error e => .error e
         | .ok pos =>
           match require_fed_spec ctx g with
           | .error e => .error e
           | .ok _ =>
             if (si.lookup g).isSome then
               match add_subgraph_field parseFieldType field false
                   (some hd) with
               | .error e => .error e
               | .ok f =>
                 match apply_interface_field_apps parseFieldType ctx stored
                     si type_name field tl with
                 | .error e => .error e
                 | .ok out => .ok ((n, pos, f) :: out)
             else
               .error (.invalidFederationSupergraph
                 ("@join__field cannot exist on " ++ type_name ++ "." ++
                  field.name ++ " for subgraph " ++ g ++
                  " without type-level @join__type"))) := by
  rw [apply_interface_field_apps, hhd]

theorem fan_out_interface_no_shareable
    (parseFieldType : String → Option GType) (ctx : ExtractContext)
    (stored : GName → Option TypeKind) (si : List (GName × Bool))
    (type_name : GName) (field : FieldDef) :
    ∀ (gs : List GName) (out : List (String × ObjOrIntf × SubgraphField)),
    fan_out_interface_field parseFieldType ctx stored si type_name field
        gs = .ok out →
    ∀ x ∈ out, FieldDirective.shareable ∉ x.2.2.directives := by
  intro gs
  induction gs with
  | nil =>
    intro out h x hx
    injection h with h
    rw [← h] at hx
    simp at hx
  | cons g gs ih =>
    intro out h x hx
    rw [fan_out_interface_field] at h
    split at h
    · simp at h
    · split at h
      · simp at h
      · split at h
        · simp at h
        · split at h
          · simp at h
          · rename_i f hadd
            split at h
            · simp at h
            · rename_i rest hrec
              injection h with h
              rw [← h] at hx
              rcases List.mem_cons.mp hx with hx | hx
              · rw [hx]
                rw [add_subgraph_field_ok_directives_any parseFieldType
                  field false none f hadd]
                exact shareable_not_mem_false _
              · exact ih rest hrec x hx

theorem apply_interface_no_shareable
    (parseFieldType : String → Option GType) (ctx : ExtractContext)
    (stored : GName → Option TypeKind) (si : List (GName × Bool))
    (type_name : GName) (field : FieldDef) :
    ∀ (apps : List FieldDirectiveArguments)
      (out : List (String × ObjOrIntf × SubgraphField)),
    apply_interface_field_apps parseFieldType ctx stored si type_name field
        apps = .ok out →
    ∀ x ∈ out, FieldDirective.shareable ∉ x.2.2.directives := by
  intro apps
  induction apps with
  | nil =>
    intro out h x hx
    injection h with h
    rw [← h] at hx
    simp at hx
  | cons hd tl ih =>
    intro out h x hx
    cases hhd : hd.graph with
    | none =>
      rw [apply_interface_field_apps_cons_none parseFieldType ctx stored si
        type_name field hd tl hhd] at h
      exact ih out h x hx
    | some g =>
      rw [apply_interface_field_apps_cons_some parseFieldType ctx stored si
        type_name field hd tl g hhd] at h
      split at h
      · simp at h
      · split at h
        · simp at h
        · split at h
          · simp at h
          · split at h
            · split at h
              · simp at h
              · rename_i f hadd
                split at h
                · simp at h
                · rename_i rest hrec
                  injection h with h
                  rw [← h] at hx
                  rcases List.mem_cons.mp hx with hx | hx
                  · rw [hx]
                    rw [add_subgraph_field_ok_directives_any parseFieldType
                      field false (some hd) f hadd]
                    exact shareable_not_mem_false _
                  · exact ih rest hrec x hx
            · simp at h

theorem extract_interface_field_no_shareable
    (parseFieldType : String → Option GType) (ctx : ExtractContext)
    (stored : GName → Option TypeKind) (si : List (GName × Bool))
    (type_name : GName) (field : FieldDef)
    (out : List (String × ObjOrIntf × SubgraphField))
    (h : extract_interface_field parseFieldType ctx stored si type_name
      field = .ok out) :
    ∀ x ∈ out, FieldDirective.shareable ∉ x.2.2.directives := by
  rw [extract_interface_field] at h
  split at h
  · exact fan_out_interface_no_shareable parseFieldType ctx stored si
      type_name field _ out h
  · exact apply_interface_no_shareable parseFieldType ctx stored si
      type_name field _ out h

/-- C3 (amended): interface-field extraction is the object-field algorithm
with two differences — the destination type for each subgraph is resolved
through the TypeInfo's `is_interface_object` flag via `get_pos` (an object
type when the flag is true, an interface when it is false, and a stored
kind inconsistent with the flag is an internal-consistency error, not a
malformed-input error), and `is_shareable` is passed as `false` for both
branches, so interface fields are never marked `@shareable` for either
destination kind. On inputs whose stored kinds are consistent with the
flags (owners with the flag true stored as objects, owners with the flag
false as interfaces, every application naming an owner), projecting away
the destination makes the extraction equal to the object-field algorithm
with both shareability inputs forced to `false`. -/
theorem interface_fields_match_object_sans_shareable
    (parseFieldType : String → Option GType) (ctx : ExtractContext)
    (stored : GName → Option TypeKind) (si : List (GName × Bool))
    (type_name : GName) (field : FieldDef)
    (hcons : ∀ p ∈ si, si.lookup p.1 = some p.2 ∧
      stored p.1 = some (if p.2 then TypeKind.object
        else TypeKind.interface))
    (happ : ∀ a ∈ field.joinFieldApps, ∀ g : GName, a.graph = some g →
      ∃ p ∈ si, p.1 = g) :
    ((extract_interface_field parseFieldType ctx stored si type_name
        field).map (fun l => l.map (fun x => (x.1, x.2.2)))
      = extract_object_field_core parseFieldType ctx type_name si field
          false false)
    ∧ (∀ out, extract_interface_field parseFieldType ctx stored si
        type_name field = .ok out →
        ∀ x ∈ out, FieldDirective.shareable ∉ x.2.2.directives)
    ∧ (∀ (stored2 : GName → Option TypeKind) (si2 : List (GName × Bool))
        (g ty : GName) (b : Bool),
        si2.lookup g = some b →
        stored2 g = some (if b then TypeKind.object
          else TypeKind.interface) →
        get_pos stored2 si2 g ty =
          .ok (if b then ObjOrIntf.object else ObjOrIntf.interface))
    ∧ (∀ (stored2 : GName → Option TypeKind) (si2 : List (GName × Bool))
        (g ty : GName),
        si2.lookup g = some false → stored2 g = some TypeKind.object →
        get_pos stored2 si2 g ty = .error (.internal
          "extract_interface_type_content encountered an unexpected interface object type in subgraph"))
    ∧ (∀ (stored2 : GName → Option TypeKind) (si2 : List (GName × Bool))
        (g ty : GName),
        si2.lookup g = some true → stored2 g = some TypeKind.interface →
        get_pos stored2 si2 g ty = .error (.internal
          "extract_interface_type_content encountered an interface type in subgraph that should have been an interface object")) := by
  refine ⟨?_, ?_, ?_, ?_, ?_⟩
  · rw [extract_interface_field, extract_object_field_core]
    by_cases he : field.joinFieldApps.isEmpty = true
    · rw [if_pos he, if_pos he]
      apply fan_out_interface_eq_fan_out
      intro g hg
      obtain ⟨p, hp, rfl⟩ := List.mem_map.mp hg
      obtain ⟨h1, h2⟩ := hcons p hp
      exact ⟨_, get_pos_ok_of_flag stored si p.1 type_name p.2 h1 h2⟩
    · rw [if_neg he, if_neg he]
      apply apply_interface_apps_eq_apply
      intro a ha g hg
      obtain ⟨p, hp, rfl⟩ := happ a ha g hg
      obtain ⟨h1, h2⟩ := hcons p hp
      exact ⟨⟨_, get_pos_ok_of_flag stored si p.1 type_name p.2 h1 h2⟩,
        by rw [h1]; rfl⟩
  · intro out hout
    exact extract_interface_field_no_shareable parseFieldType ctx stored si
      type_name field out hout
  · intro stored2 si2 g ty b h1 h2
    exact get_pos_ok_of_flag stored2 si2 g ty b h1 h2
  · intro stored2 si2 g ty h1 h2
    unfold get_pos
    rw [h1, h2]
    rfl
  · intro stored2 si2 g ty h1 h2
    unfold get_pos
    rw [h1, h2]
    rfl

/-- C3 (witness for the amended theorem): a type owned by `GA` as a plain
interface and by `GB` as an interface-object projection — the extraction
equals the never-shareable object algorithm, no output field carries
`@shareable`, the destinations resolve to an interface for `GA` and an
object for `GB`, and a wrong-kind lookup is the internal error. -/
theorem interface_fields_match_object_sans_shareable_witness :
    (((extract_interface_field parseNone ctxAB storedMixed siMixed "I"
        fldPlain).map (fun l => l.map (fun x => (x.1, x.2.2))))
      = extract_object_field_core parseNone ctxAB "I" siMixed fldPlain
          false false)
    ∧ (∀ x ∈ [("a", ObjOrIntf.interface, fldPlainOut),
        ("b", ObjOrIntf.object, fldPlainOut)],
        FieldDirective.shareable ∉ x.2.2.directives)
    ∧ get_pos storedMixed siMixed "GB" "I" = .ok ObjOrIntf.object
    ∧ get_pos storedMixed siMixed "GA" "I" = .ok ObjOrIntf.interface
    ∧ get_pos (fun _ => some TypeKind.object) siAB "GA" "I" =
        .error (.internal
          "extract_interface_type_content encountered an unexpected interface object type in subgraph") := by
  have h := interface_fields_match_object_sans_shareable parseNone ctxAB
    storedMixed siMixed "I" fldPlain (by decide) (by decide)
  refine ⟨h.1, h.2.1 _ (by decide), ?_, ?_,
    h.2.2.2.1 (fun _ => some TypeKind.object) siAB "GA" "I" (by decide)
      rfl⟩
  · have := h.2.2.1 storedMixed siMixed "GB" "I" true (by decide)
      (by decide)
    simpa using this
  · have := h.2.2.1 storedMixed siMixed "GA" "I" false (by decide)
      (by decide)
    simpa using this


theorem insertType_ok (s : SubSchema) (t : TypeDef) (s2 : SubSchema)
    (h : insertType s t = .ok s2) :
    s2.types = s.types ++ [t] ∧ s2.queryRoot = s.queryRoot ∧
      s2.mutationRoot = s.mutationRoot ∧
      s2.subscriptionRoot = s.subscriptionRoot ∧
      s2.directiveDefs = s.directiveDefs ∧
      (s.types.any (fun u => u.name == t.name)) = false := by
  unfold insertType at h
  split at h
  · simp at h
  · rename_i hdup
    injection h with h
    subst h
    exact ⟨rfl, rfl, rfl, rfl, rfl, by simpa using hdup⟩

theorem upsertMember_ok (s : SubSchema) (ty : GName) (m : MemberDef)
    (s2 : SubSchema) (h : upsertMember s ty m = .ok s2) :
    s2.types = s.types.map (fun t => if t.name == ty then
        { t with members := upsertList m t.members } else t) ∧
      s2.queryRoot = s.queryRoot ∧
      (s.types.any (fun t => t.name == ty)) = true := by
  unfold upsertMember at h
  split at h
  · rename_i hany
    injection h with h
    subst h
    exact ⟨rfl, rfl, hany⟩
  · simp at h

theorem removeMember_ok (s : SubSchema) (ty : GName) (mName : GName)
    (s2 : SubSchema) (h : removeMember s ty mName = .ok s2) :
    s2.types = s.types.map (fun t => if t.name == ty then
        { t with members := t.members.filter (fun x => !(x.name == mName)) }
        else t) ∧
      s2.queryRoot = s.queryRoot ∧
      (s.types.any (fun t => t.name == ty)) = true := by
  unfold removeMember at h
  split at h
  · rename_i hany
    injection h with h
    subst h
    exact ⟨rfl, rfl, hany⟩
  · simp at h

theorem mem_upsertList (m : MemberDef) (ms : List MemberDef) :
    m ∈ upsertList m ms := by
  unfold upsertList
  split
  · rename_i hany
    simp only [List.any_eq_true] at hany
    obtain ⟨x, hx, hname⟩ := hany
    exact List.mem_map.mpr ⟨x, hx, by simp [hname]⟩
  · simp

theorem mem_upsertList_preserved (m m2 : MemberDef) (ms : List MemberDef)
    (hm : m2 ∈ ms) (hne : ¬(m2.name = m.name)) : m2 ∈ upsertList m ms := by
  unfold upsertList
  split
  · exact List.mem_map.mpr ⟨m2, hm, by simp [hne]⟩
  · exact List.mem_append_left _ hm

theorem upsertList_mem_cases (m : MemberDef) (ms : List MemberDef)
    (x : MemberDef) (hx : x ∈ upsertList m ms) : x = m ∨ x ∈ ms := by
  unfold upsertList at hx
  split at hx
  · obtain ⟨y, hy, hxy⟩ := List.mem_map.mp hx
    by_cases h : (y.name == m.name) = true
    · rw [if_pos h] at hxy
      exact Or.inl hxy.symm
    · rw [if_neg h] at hxy
      exact Or.inr (hxy ▸ hy)
  · rcases List.mem_append.mp hx with h | h
    · exact Or.inr h
    · simp at h
      exact Or.inl h

theorem mem_map_members_update (g : List MemberDef → List MemberDef)
    (ty : GName) (ts : List TypeDef) (t : TypeDef)
    (ht : t ∈ ts.map (fun u => if u.name == ty then
      { u with members := g u.members } else u)) :
    ∃ u ∈ ts, t.name = u.name ∧ t.kind = u.kind ∧
      t.members = (if u.name == ty then g u.members else u.members) := by
  obtain ⟨u, hu, htu⟩ := List.mem_map.mp ht
  by_cases h : (u.name == ty) = true
  · rw [if_pos h] at htu
    exact ⟨u, hu, by rw [← htu], by rw [← htu], by rw [← htu, if_pos h]⟩
  · rw [if_neg h] at htu
    exact ⟨u, hu, by rw [← htu], by rw [← htu], by rw [← htu, if_neg h]⟩

theorem keyedObjectNames_append (ts us : List TypeDef) :
    keyedObjectNames (ts ++ us) =
      keyedObjectNames ts ++ keyedObjectNames us := by
  simp [keyedObjectNames]

/-- C4: after federation-operation synthesis on a subgraph schema (one that
does not itself define `_Entity`, nor use it as query root), the schema
contains the `_Entity` union — whose members are exactly the keyed object
types — and the `_entities` field on the query root, when at least one
object type carries `@key`; when none does, no `_Entity` type exists and
the query root carries no `_entities` field (any prior one is removed). -/
theorem entity_surface_iff_keyed (s sOut : SubSchema)
    (hok : add_federation_operations s = .ok sOut)
    (hent : ∀ t ∈ s.types, t.name ≠ "_Entity")
    (hroot : ∀ n, s.queryRoot = some n → n ≠ "_Entity") :
    (keyedObjectNames s.types ≠ [] →
      (∃ t ∈ sOut.types, t.name = "_Entity" ∧ t.kind = TypeKind.union ∧
        t.members = (keyedObjectNames s.types).map (fun n =>
          { name := n, payload := MemberPayload.unionMember n }))
      ∧ (∃ rootName, sOut.queryRoot = some rootName ∧
          ∃ rt ∈ sOut.types, rt.name = rootName ∧
            entitiesFieldMember ∈ rt.members))
    ∧ (keyedObjectNames s.types = [] →
      (∀ t ∈ sOut.types, t.name ≠ "_Entity")
      ∧ (∀ rootName, sOut.queryRoot = some rootName →
          ∀ rt ∈ sOut.types, rt.name = rootName →
          ∀ m ∈ rt.members, m.name ≠ "_entities")) := by
  unfold add_federation_operations at hok
  split at hok
  · simp at hok
  · rename_i sA hA
    split at hok
    · simp at hok
    · rename_i sB hB
      obtain ⟨hAt, hAq, _, _, _, _⟩ := insertType_ok _ _ _ hA
      obtain ⟨hBt, hBq, _, _, _, _⟩ := insertType_ok _ _ _ hB
      have hkeyed : keyedObjectNames sB.types = keyedObjectNames s.types := by
        rw [hBt, hAt, keyedObjectNames_append, keyedObjectNames_append]
        simp [keyedObjectNames, anyScalarDef, serviceTypeDef]
      split at hok
      · simp at hok
      · rename_i sC hC
        split at hok
        · simp at hok
        · rename_i sD hD
          split at hok
          · simp at hok
          · rename_i rootName hRoot
            -- facts about sD relative to sC
            have hDfacts : (sD.types = sC.types ∧ sD.queryRoot = sC.queryRoot)
                ∨ (sD.types = sC.types ++ [emptyQueryDef] ∧
                    sD.queryRoot = some "Query" ∧ sC.queryRoot = none) := by
              split at hD
              · injection hD with hD
                subst hD
                exact Or.inl ⟨rfl, rfl⟩
              · rename_i hq
                split at hD
                · simp at hD
                · rename_i sF hF
                  obtain ⟨hFt, hFq, _, _, _, _⟩ := insertType_ok _ _ _ hF
                  injection hD with hD
                  subst hD
                  exact Or.inr ⟨hFt, rfl, hq⟩
            split at hok
            · simp at hok
            · rename_i sE hE
              obtain ⟨hOt, hOq, hOguard⟩ := upsertMember_ok _ _ _ _ hok
              by_cases hkey : keyedObjectNames s.types = []
              · -- keyed empty: the if-conditions are false
                have hcond : (!(keyedObjectNames sB.types).isEmpty) = false := by
                  rw [hkeyed, hkey]
                  rfl
                rw [if_neg (by rw [hcond]; simp)] at hC
                injection hC with hC
                subst hC
                rw [if_neg (by rw [hcond]; simp)] at hE
                obtain ⟨hEt, hEq, hEguard⟩ := removeMember_ok _ _ _ _ hE
                refine ⟨fun hne => absurd hkey hne, fun _ => ⟨?_, ?_⟩⟩
                · -- no _Entity anywhere
                  intro t ht
                  rw [hOt] at ht
                  obtain ⟨u, hu, hname, _, _⟩ :=
                    mem_map_members_update _ _ _ _ ht
                  rw [hEt] at hu
                  obtain ⟨v, hv, hname2, _, _⟩ :=
                    mem_map_members_update _ _ _ _ hu
                  rw [hname, hname2]
                  rcases hDfacts with ⟨hDt, _⟩ | ⟨hDt, _, _⟩ <;> rw [hDt] at hv
                  · rw [hBt, hAt] at hv
                    rcases List.mem_append.mp hv with hv | hv
                    · rcases List.mem_append.mp hv with hv | hv
                      · exact hent v hv
                      · simp at hv
                        rw [hv]
                        decide
                    · simp at hv
                      rw [hv]
                      decide
                  · rcases List.mem_append.mp hv with hv | hv
                    · rw [hBt, hAt] at hv
                      rcases List.mem_append.mp hv with hv | hv
                      · rcases List.mem_append.mp hv with hv | hv
                        · exact hent v hv
                        · simp at hv
                          rw [hv]
                          decide
                      · simp at hv
                        rw [hv]
                        decide
                    · simp at hv
                      rw [hv]
                      decide
                · -- no _entities on the root type
                  intro rootName2 hq2 rt hrt hrtname m hm
                  rw [hOq, hEq, hRoot] at hq2
                  injection hq2 with hq2
                  rw [hOt] at hrt
                  obtain ⟨u, hu, hname, _, hmem⟩ :=
                    mem_map_members_update _ _ _ _ hrt
                  have hguard : (u.name == rootName) = true := by
                    rw [← hname, hrtname, ← hq2]
                    exact beq_self_eq_true _
                  rw [if_pos hguard] at hmem
                  rw [hmem] at hm
                  rcases upsertList_mem_cases _ _ _ hm with hmm | hmm
                  · rw [hmm]
                    decide
                  · rw [hEt] at hu
                    obtain ⟨v, hv, hname2, _, hmem2⟩ :=
                      mem_map_members_update _ _ _ _ hu
                    have hguard2 : (v.name == rootName) = true := by
                      rw [← hname2, ← hname, hrtname, ← hq2]
                      exact beq_self_eq_true _
                    rw [if_pos hguard2] at hmem2
                    rw [hmem2] at hmm
                    have := List.of_mem_filter hmm
                    simpa using this
              · -- keyed non-empty
                have hcond : (!(keyedObjectNames sB.types).isEmpty) = true := by
                  rw [hkeyed]
                  simpa [List.isEmpty_iff] using hkey
                rw [if_pos (by rw [hcond])] at hC
                rw [if_pos (by rw [hcond])] at hE
                obtain ⟨hCt, hCq, _, _, _, _⟩ := insertType_ok _ _ _ hC
                obtain ⟨hEt, hEq, hEguard⟩ := upsertMember_ok _ _ _ _ hE
                have hrootne : rootName ≠ "_Entity" := by
                  rcases hDfacts with ⟨_, hDq⟩ | ⟨_, hDq, _⟩
                  · rw [hDq, hCq, hBq, hAq] at hRoot
                    exact hroot rootName hRoot
                  · rw [hDq] at hRoot
                    injection hRoot with hRoot
                    rw [← hRoot]
                    decide
                refine ⟨fun _ => ⟨?_, ?_⟩, fun heq => absurd heq hkey⟩
                · -- the _Entity union is in the output with the keyed members
                  have hCent : entityUnionDef (keyedObjectNames sB.types) ∈
                      sC.types := by
                    rw [hCt]
                    exact List.mem_append_right _ (List.mem_cons_self _ _)
                  have hDent : entityUnionDef (keyedObjectNames sB.types) ∈
                      sD.types := by
                    rcases hDfacts with ⟨hDt, _⟩ | ⟨hDt, _, _⟩ <;> rw [hDt]
                    · exact hCent
                    · exact List.mem_append_left _ hCent
                  have hguardE : ((entityUnionDef
                      (keyedObjectNames sB.types)).name == rootName) =
                        false := by
                    simp [entityUnionDef]
                    intro hcontra
                    exact hrootne hcontra.symm
                  have hEent : entityUnionDef (keyedObjectNames sB.types) ∈
                      sE.types := by
                    rw [hEt]
                    exact List.mem_map.mpr ⟨_, hDent, by rw [if_neg (by
                      rw [hguardE]; simp)]⟩
                  refine ⟨entityUnionDef (keyedObjectNames sB.types), ?_,
                    by simp [entityUnionDef], by simp [entityUnionDef],
                    by simp [entityUnionDef, hkeyed]⟩
                  rw [hOt]
                  exact List.mem_map.mpr ⟨_, hEent, by rw [if_neg (by
                    rw [hguardE]; simp)]⟩
                · -- the root carries the _entities field
                  refine ⟨rootName, by rw [hOq, hEq, hRoot], ?_⟩
                  obtain ⟨v, hv, hvname⟩ := List.any_eq_true.mp hEguard
                  have hvguard : (v.name == rootName) = true := hvname
                  refine ⟨{ v with members := (upsertList serviceFieldMember
                      (upsertList entitiesFieldMember v.members)) },
                    ?_, ?_, ?_⟩
                  · rw [hOt]
                    apply List.mem_map.mpr
                    refine ⟨{ v with members := (upsertList
                        entitiesFieldMember v.members) }, ?_, ?_⟩
                    · rw [hEt]
                      exact List.mem_map.mpr ⟨v, hv, by rw [if_pos hvguard]⟩
                    · rw [if_pos hvguard]
                  · simpa using hvguard
                  · exact mem_upsertList_preserved _ _ _
                      (mem_upsertList _ _) (by decide)

/-- C4 (witness): a schema with one keyed object gains `_Entity` with that
sole member and `Query._entities`. -/
theorem entity_surface_iff_keyed_witness :
    (keyedObjectNames schemaKeyedP.types ≠ [] →
      (∃ t ∈ schemaKeyedPOut.types, t.name = "_Entity" ∧
        t.kind = TypeKind.union ∧
        t.members = (keyedObjectNames schemaKeyedP.types).map (fun n =>
          { name := n, payload := MemberPayload.unionMember n }))
      ∧ (∃ rootName, schemaKeyedPOut.queryRoot = some rootName ∧
          ∃ rt ∈ schemaKeyedPOut.types, rt.name = rootName ∧
            entitiesFieldMember ∈ rt.members))
    ∧ (keyedObjectNames schemaKeyedP.types = [] →
      (∀ t ∈ schemaKeyedPOut.types, t.name ≠ "_Entity")
      ∧ (∀ rootName, schemaKeyedPOut.queryRoot = some rootName →
          ∀ rt ∈ schemaKeyedPOut.types, rt.name = rootName →
          ∀ m ∈ rt.members, m.name ≠ "_entities")) :=
  entity_surface_iff_keyed schemaKeyedP schemaKeyedPOut (by decide)
    (by decide) (by decide)


theorem finish_loop_skip_validation (valid : SubSchema → Bool)
    (ctx : ExtractContext) :
    ∀ (gs : List GName) (subs : Subgraphs),
    finish_and_validate_loop valid false ctx subs gs =
      finish_and_validate_loop (fun _ => true) true ctx subs gs := by
  intro gs
  induction gs with
  | nil => intro subs; rfl
  | cons g gs ih =>
    intro subs
    rw [finish_and_validate_loop, finish_and_validate_loop]
    cases hgs : get_subgraph_name ctx g with
    | error e => simp [hgs]
    | ok n =>
      cases hfs : require_fed_spec ctx g with
      | error e => simp [hgs, hfs]
      | ok u =>
        cases hfind : subs.find? (fun w => w.name == n) with
        | none => simp [hgs, hfs, hfind]
        | some w =>
          cases hadd : add_federation_operations w.schema with
          | error e => simp [hgs, hfs, hfind, hadd]
          | ok sch => simp [hgs, hfs, hfind, hadd, ih]

/-- C10: the public entry point's optional validation flag defaults to
true when absent; passing `Some false` skips per-subgraph validation
entirely (the run is identical to one whose validator accepts everything,
so schemas that would fail generic validation can be returned); all stages
before the validation check behave identically regardless of the flag; and
with validation on, a subgraph whose post-synthesis schema fails the
generic validator aborts the extraction with a diagnostic naming the
subgraph. -/
theorem validation_flag_semantics (parseFieldType : String → Option GType)
    (valid : SubSchema → Bool) (sg : Supergraph) :
    extract_subgraphs_from_supergraph parseFieldType valid sg none =
      extract_subgraphs_from_supergraph parseFieldType valid sg (some true)
    ∧ extract_subgraphs_from_supergraph parseFieldType valid sg
        (some false) =
      extract_subgraphs_from_supergraph parseFieldType (fun _ => true) sg
        (some true)
    ∧ (∀ (ctx : ExtractContext) (subs : Subgraphs) (g : GName)
        (gs : List GName) (n : String) (u : FederationSubgraph)
        (sch : SubSchema),
        get_subgraph_name ctx g = .ok n →
        require_fed_spec ctx g = .ok () →
        subs.find? (fun w => w.name == n) = some u →
        add_federation_operations u.schema = .ok sch →
        valid sch = false →
        finish_and_validate_loop valid true ctx subs (g :: gs) =
          .error (.invalidFederationSupergraph
            ("Unexpected error extracting " ++ n ++
             " from the supergraph: this is either a bug, or the supergraph has been corrupted"))) := by
  refine ⟨rfl, ?_, ?_⟩
  · unfold extract_subgraphs_from_supergraph
    cases hv : validate_supergraph sg with
    | error e => rfl
    | ok u =>
      cases hc : collect_empty_subgraphs sg with
      | error e => simp [hc]
      | ok r =>
        by_cases hfed : (sg.joinVersion == Version.mk 0 1) = true
        · simp [hc, hfed]
        · cases hex : extract_subgraphs_from_fed_2_supergraph parseFieldType
              r.2 sg r.1 (sg.types.filter (fun t =>
                !(is_spec_type_name t.name))) with
          | error e => simp [hc, hfed, hex]
          | ok subs =>
            simp [hc, hfed, hex, finish_loop_skip_validation]
  · intro ctx subs g gs n u sch hgs hfs hfind hadd hvalid
    rw [finish_and_validate_loop]
    simp [hgs, hfs, hfind, hadd, hvalid]

/-- C10 (witness): the default equals explicit validation, and a failing
validator aborts the loop with the diagnostic naming the subgraph. -/
theorem validation_flag_semantics_witness :
    (extract_subgraphs_from_supergraph parseNone (fun _ => false) sgSmall
        none =
      extract_subgraphs_from_supergraph parseNone (fun _ => false) sgSmall
        (some true))
    ∧ finish_and_validate_loop (fun _ => false) true ctxGA [subA] ["GA"] =
        .error (.invalidFederationSupergraph
          ("Unexpected error extracting " ++ "a" ++
           " from the supergraph: this is either a bug, or the supergraph has been corrupted")) :=
  ⟨(validation_flag_semantics parseNone (fun _ => false) sgSmall).1,
   (validation_flag_semantics parseNone (fun _ => false) sgSmall).2.2 ctxGA
     [subA] "GA" [] "a" subA schEmptyFedOut rfl rfl rfl (by decide) rfl⟩


end ExtractSubgraphs
